import Mathlib

/-!
Verification development for the typing state machine and render-buffer model
of the typewritesomething repository.

Modelled components:
* a JSON value model with a parser and the serializer shape produced by
  `JSON.stringify` on lists of x/y/s records (used by `TypeWriter.export` and
  `TypeWriter.import` in src/Typewriter.ts);
* the 2D `TypeWriter` document model (src/Typewriter.ts) together with the
  cursor engine; the repository's `Cursor` class itself is not among the
  provided sources, so its operations are modelled from the specification;
* the 3D scene paper buffer, carriage and type-bar timer machine
  (src/TypewriterScene3D.ts, first variant: 512x640 paper canvas).

Numbers that are IEEE doubles in the source are modelled as rationals;
machine-level rounding plays no role in any of the verified properties.
-/

namespace TWS

/-! ## JSON model

`TypeWriter.export` uses `JSON.stringify`, `TypeWriter.import` uses
`JSON.parse`.  We model JSON values, a parser, and the exact serialization
shape `JSON.stringify` produces for an array of record objects. -/

inductive Json where
  | null
  | bool (b : Bool)
  | num (q : ℚ)
  | str (s : String)
  | arr (items : List Json)
  | obj (fields : List (String × Json))

/-- Digit test used by the JSON number grammar. -/
def isDigitC (c : Char) : Bool := '0' ≤ c && c ≤ '9'

/-- Numeric value of a decimal digit character. -/
def digitVal (c : Char) : Nat := c.toNat - '0'.toNat

/-- Decimal digit character for a value below ten. -/
def digitChar : Nat → Char
  | 0 => '0' | 1 => '1' | 2 => '2' | 3 => '3' | 4 => '4'
  | 5 => '5' | 6 => '6' | 7 => '7' | 8 => '8' | 9 => '9'
  | _ => '*'

/-- Longest digit run at the head of the input, with the rest. -/
def takeDigits : List Char → List Char × List Char
  | [] => ([], [])
  | c :: cs =>
    if isDigitC c then
      let p := takeDigits cs
      (c :: p.1, p.2)
    else ([], c :: cs)

/-- Value of a digit-character run, most significant first. -/
def digitsVal (ds : List Char) : Nat := ds.foldl (fun a c => a * 10 + digitVal c) 0

/-- Head test on a character list. -/
def headIs (l : List Char) (c : Char) : Bool :=
  match l with
  | [] => false
  | d :: _ => d == c

/-- Head-is-a-digit test. -/
def headDigit (l : List Char) : Bool :=
  match l with
  | [] => false
  | d :: _ => isDigitC d

/-- Boundary check after a JSON number: the remaining input must not extend
the number (no digit, no fraction dot, no exponent letter). -/
def numBoundary (l : List Char) : Bool :=
  match l with
  | [] => true
  | c :: _ => !(isDigitC c || c = '.' || c = 'e' || c = 'E')

/-- Unsigned part of the JSON number grammar: integer part without
leading zeros, optional fraction, optional exponent, as an exact
rational. -/
def parseUnsigned (l : List Char) : Option (ℚ × List Char) :=
  match l with
  | [] => none
  | c :: t =>
    if !(isDigitC c) then none
    else if c = '0' && headDigit t then none
    else
      let p := takeDigits (c :: t)
      let ip : ℚ := (digitsVal p.1 : ℚ)
      let fr : Option (ℚ × List Char) :=
        if headIs p.2 '.' then
          let p2 := takeDigits p.2.tail
          if p2.1 = [] then none
          else some (ip + (digitsVal p2.1 : ℚ) / (10 : ℚ) ^ p2.1.length, p2.2)
        else some (ip, p.2)
      match fr with
      | none => none
      | some vr =>
        if headIs vr.2 'e' || headIs vr.2 'E' then
          let l3 := vr.2.tail
          let esign := headIs l3 '-'
          let l4 := if headIs l3 '+' || headIs l3 '-' then l3.tail else l3
          let p3 := takeDigits l4
          if p3.1 = [] then none
          else
            let e := digitsVal p3.1
            some (if esign then vr.1 / (10 : ℚ) ^ e else vr.1 * (10 : ℚ) ^ e, p3.2)
        else some (vr.1, vr.2)

/-- JSON number parser: optional minus sign, then the unsigned part. -/
def parseNumber (l : List Char) : Option (ℚ × List Char) :=
  let neg := headIs l '-'
  match parseUnsigned (if neg then l.tail else l) with
  | some vr => some (if neg then -vr.1 else vr.1, vr.2)
  | none => none

/-- Hexadecimal digit value, for string unicode escapes. -/
def hexVal (ch : Char) : Option Nat :=
  if isDigitC ch then some (digitVal ch)
  else if 'a' ≤ ch && ch ≤ 'f' then some (ch.toNat - 'a'.toNat + 10)
  else if 'A' ≤ ch && ch ≤ 'F' then some (ch.toNat - 'A'.toNat + 10)
  else none

/-- Single-character JSON string escapes. -/
def simpleEsc (c : Char) : Option Char :=
  if c = '"' then some '"'
  else if c = '\\' then some '\\'
  else if c = '/' then some '/'
  else if c = 'b' then some '\x08'
  else if c = 'f' then some '\x0c'
  else if c = 'n' then some '\n'
  else if c = 'r' then some '\x0d'
  else if c = 't' then some '\t'
  else none

/-- Body of a JSON string after the opening quote: returns the decoded
characters and the input after the closing quote.  Raw control characters
are rejected, as in `JSON.parse`.  A `u` escape outside the scalar range is
idealised by `Char.ofNat`'s default. -/
def parseStringBody : List Char → Option (List Char × List Char)
  | [] => none
  | c :: rest =>
    if c = '"' then some ([], rest)
    else if c = '\\' then
      match rest with
      | [] => none
      | e :: rest2 =>
        if e = 'u' then
          match rest2 with
          | h1 :: h2 :: h3 :: h4 :: rest3 =>
            match hexVal h1, hexVal h2, hexVal h3, hexVal h4 with
            | some a, some b, some c2, some d =>
              match parseStringBody rest3 with
              | some sr => some (Char.ofNat (((a * 16 + b) * 16 + c2) * 16 + d) :: sr.1, sr.2)
              | none => none
            | _, _, _, _ => none
          | _ => none
        else
          match simpleEsc e with
          | some ec =>
            match parseStringBody rest2 with
            | some sr => some (ec :: sr.1, sr.2)
            | none => none
          | none => none
    else if c.toNat < 0x20 then none
    else
      match parseStringBody rest with
      | some sr => some (c :: sr.1, sr.2)
      | none => none

/-- JSON whitespace test. -/
def isWsC (c : Char) : Bool := c = ' ' || c = '\t' || c = '\n' || c = '\x0d'

/-- Whitespace skipping, as in the JSON grammar. -/
def skipWs : List Char → List Char
  | [] => []
  | c :: cs => if isWsC c then skipWs cs else c :: cs

/-- Match an exact literal continuation (used for null/true/false). -/
def dropLit : List Char → List Char → Option (List Char)
  | [], l => some l
  | _ :: _, [] => none
  | c :: cs, x :: xs => if x = c then dropLit cs xs else none

mutual

/-- JSON value parser; the fuel bounds the recursion depth and is in
practice the input length plus one. -/
def parseValue : Nat → List Char → Option (Json × List Char)
  | 0, _ => none
  | fuel + 1, input =>
    match skipWs input with
    | [] => none
    | c :: rest =>
      if c = 'n' then
        match dropLit ['u', 'l', 'l'] rest with
        | some r => some (.null, r)
        | none => none
      else if c = 't' then
        match dropLit ['r', 'u', 'e'] rest with
        | some r => some (.bool true, r)
        | none => none
      else if c = 'f' then
        match dropLit ['a', 'l', 's', 'e'] rest with
        | some r => some (.bool false, r)
        | none => none
      else if c = '"' then
        match parseStringBody rest with
        | some sr => some (.str (String.mk sr.1), sr.2)
        | none => none
      else if c = '[' then
        if headIs (skipWs rest) ']' then some (.arr [], (skipWs rest).tail)
        else
          match parseItems fuel rest with
          | some ir => some (.arr ir.1, ir.2)
          | none => none
      else if c = '\x7b' then
        if headIs (skipWs rest) '\x7d' then some (.obj [], (skipWs rest).tail)
        else
          match parseFields fuel rest with
          | some fr => some (.obj fr.1, fr.2)
          | none => none
      else if c = '-' || isDigitC c then
        match parseNumber (c :: rest) with
        | some qr => some (.num qr.1, qr.2)
        | none => none
      else none

/-- Comma-separated JSON array items up to the closing bracket. -/
def parseItems : Nat → List Char → Option (List Json × List Char)
  | 0, _ => none
  | fuel + 1, input =>
    match parseValue fuel input with
    | none => none
    | some vr =>
      let r1 := skipWs vr.2
      if headIs r1 ',' then
        match parseItems fuel r1.tail with
        | some ir => some (vr.1 :: ir.1, ir.2)
        | none => none
      else if headIs r1 ']' then some ([vr.1], r1.tail)
      else none

/-- Comma-separated JSON object fields up to the closing brace. -/
def parseFields : Nat → List Char → Option (List (String × Json) × List Char)
  | 0, _ => none
  | fuel + 1, input =>
    match skipWs input with
    | [] => none
    | c :: rest =>
      if c = '"' then
        match parseStringBody rest with
        | none => none
        | some kr =>
          let l2 := skipWs kr.2
          if headIs l2 ':' then
            match parseValue fuel l2.tail with
            | none => none
            | some vr =>
              let l3 := skipWs vr.2
              if headIs l3 ',' then
                match parseFields fuel l3.tail with
                | some fr => some ((String.mk kr.1, vr.1) :: fr.1, fr.2)
                | none => none
              else if headIs l3 '\x7d' then some ([(String.mk kr.1, vr.1)], l3.tail)
              else none
          else none
      else none

end

/-- Models `JSON.parse`: full input must be consumed (up to whitespace);
any failure corresponds to the thrown `SyntaxError`. -/
def jsonParse (s : String) : Option Json :=
  match parseValue (s.data.length + 1) s.data with
  | some vr => if skipWs vr.2 = [] then some vr.1 else none
  | none => none

/-! ## Serialization shape of `JSON.stringify`

`TypeWriter.export` runs `JSON.stringify(this.chars.map(c => x/y/s))`.
The following functions reproduce the exact output text: records rendered
as objects with keys in insertion order x, y, s, no whitespace, strings
with quote/backslash escaping, integers in plain decimal. -/

/-- Decimal digits of a natural number, most significant first; the fuel
is always sufficient at `n + 1`. -/
def natReprAux : Nat → Nat → List Char
  | 0, _ => []
  | fuel + 1, n => if n = 0 then [] else natReprAux fuel (n / 10) ++ [digitChar (n % 10)]

/-- Decimal representation of a natural number. -/
def natReprC (m : Nat) : List Char := if m = 0 then ['0'] else natReprAux (m + 1) m

/-- Decimal representation of an integer. -/
def intReprC (i : Int) : List Char :=
  if i < 0 then '-' :: natReprC i.natAbs else natReprC i.natAbs

/-- Fractional decimal digits of `num / den` (`num < den`), long division
with fuel; exact whenever the expansion terminates within the fuel. -/
def fracDigitsAux : Nat → Nat → Nat → List Char
  | 0, _, _ => []
  | fuel + 1, num, den =>
    if num = 0 then []
    else digitChar (num * 10 / den) :: fracDigitsAux fuel (num * 10 % den) den

/-- Decimal text of a rational as produced by `JSON.stringify` for a JS
number: exact for integers and for denominators dividing a power of ten
(every JS float); other denominators are truncated at 64 digits, which no
JS-originated value can reach. -/
def ratReprC (q : ℚ) : List Char :=
  if q.den = 1 then intReprC q.num
  else
    (if q < 0 then ['-'] else []) ++
      natReprC (q.num.natAbs / q.den) ++ '.' :: fracDigitsAux 64 (q.num.natAbs % q.den) q.den

/-- JSON escaping: `JSON.stringify` escapes quote and backslash and leaves
other printable characters literal; control characters are rendered with a
unicode escape (idealising the handful of short-form escapes JS uses). -/
def escCharJson (c : Char) : List Char :=
  if c = '"' then ['\\', '"']
  else if c = '\\' then ['\\', '\\']
  else if c.toNat < 0x20 then
    ['\\', 'u', '0', '0', digitChar (c.toNat / 16), digitChar (c.toNat % 16)]
  else [c]

/-- Escaped body of a JSON string literal. -/
def escBody (cs : List Char) : List Char := (cs.map escCharJson).flatten

/-- A quoted JSON string literal. -/
def quoteChars (s : String) : List Char := '"' :: escBody s.data ++ ['"']

/-! ## TypeWriter document model (src/Typewriter.ts) -/

/-- A 2D page-space vector (`Vector` in the source). -/
structure V2 where
  x : ℚ
  y : ℚ
deriving DecidableEq

/-- A placed character record: the x/y/s projection of the source's
`Character` that `export` serialises and `import` replays. -/
structure CharRec where
  s : String
  x : ℚ
  y : ℚ
deriving DecidableEq

/-- Configuration of the cursor engine.  Margins, letter width and line
height come from `getLeftMargin`, `getRightMargin`, `getLetterWidth` and
the font metrics, which are viewport-dependent; they are parameters here.
`originX`/`originY` is the cursor's default origin. -/
structure TWCfg where
  leftMargin : ℚ
  rightMargin : ℚ
  letterWidth : ℚ
  lineHeight : ℚ
  originX : ℚ
  originY : ℚ
deriving DecidableEq

namespace Cursor

/-- Modelled from the spec: the repository's `Cursor` class is not among
the provided sources.  Per the spec, LTR movement is one character-width to
the right, and violating a margin triggers a wrap (a newline), not a
clamp. -/
def moveright (cfg : TWCfg) (p : V2) : V2 :=
  let x := p.x + cfg.letterWidth
  if cfg.rightMargin < x then ⟨cfg.leftMargin, p.y + cfg.lineHeight⟩ else ⟨x, p.y⟩

/-- Modelled from the spec: RTL movement is one character-width to the
left, wrapping at the left margin to the right margin on a new line. -/
def moveleft (cfg : TWCfg) (p : V2) : V2 :=
  let x := p.x - cfg.letterWidth
  if x < cfg.leftMargin then ⟨cfg.rightMargin, p.y + cfg.lineHeight⟩ else ⟨x, p.y⟩

/-- Modelled from the spec: a newline in LTR mode resets x to the left
margin and advances y by one line-height. -/
def newline (cfg : TWCfg) (p : V2) : V2 := ⟨cfg.leftMargin, p.y + cfg.lineHeight⟩

/-- Modelled from the spec: a newline in RTL mode resets x to the right
margin and advances y by one line-height. -/
def newlineRTL (cfg : TWCfg) (p : V2) : V2 := ⟨cfg.rightMargin, p.y + cfg.lineHeight⟩

/-- Modelled from the spec: reset re-initialises the cursor to the default
origin. -/
def resetC (cfg : TWCfg) : V2 := ⟨cfg.originX, cfg.originY⟩

end Cursor

/-- The `TypeWriter` state: ordered placed characters, cursor position and
the RTL direction mode.  Purely visual fields (canvas offset, container
scale, DOM canvases) are omitted. -/
structure TW where
  chars : List CharRec
  cursorPos : V2
  isRTLMode : Bool
deriving DecidableEq

/-- Hebrew (RTL) classification, Unicode block U+0590 to U+05FF; the source
tests `charCodeAt(0)` of a one-character string. -/
def isHebrewChar (c : Char) : Bool := 0x590 ≤ c.toNat && c.toNat ≤ 0x5ff

namespace TypeWriter

/-- The switching-to-RTL seam snap of `addCharacter`: when the incoming
character is RTL, the previous mode was LTR, and the cursor sits within
two letter widths of the left margin, jump to the right margin. -/
def snapRTL (cfg : TWCfg) (isRTL wasRTL : Bool) (tw : TW) : TW :=
  if isRTL && !wasRTL && decide (tw.cursorPos.x ≤ cfg.leftMargin + cfg.letterWidth * 2) then
    { tw with cursorPos := ⟨cfg.rightMargin, tw.cursorPos.y⟩ }
  else tw

/-- The switching-to-LTR seam snap of `addCharacter`: when the incoming
character is LTR, the previous mode was RTL, and the cursor sits within
two letter widths of the right margin, jump to the left margin. -/
def snapLTR (cfg : TWCfg) (isRTL wasRTL : Bool) (tw : TW) : TW :=
  if !isRTL && wasRTL && decide (cfg.rightMargin - cfg.letterWidth * 2 ≤ tw.cursorPos.x) then
    { tw with cursorPos := ⟨cfg.leftMargin, tw.cursorPos.y⟩ }
  else tw

/-- The placed-character append of `addCharacter`: one record at the
current cursor position. -/
def placeChar (tw : TW) (ch : Char) : TW :=
  { tw with chars := tw.chars ++ [⟨String.singleton ch, tw.cursorPos.x, tw.cursorPos.y⟩] }

/-- One step of the character loop in `addCharacter` (no explicit
coordinates): direction re-classification, seam snaps at the margins, the
append of the placed character, then the cursor move (left for RTL, right
for LTR). -/
def addChar1 (cfg : TWCfg) (tw : TW) (ch : Char) : TW :=
  let tw4 := placeChar
    (snapLTR cfg (isHebrewChar ch) tw.isRTLMode
      (snapRTL cfg (isHebrewChar ch) tw.isRTLMode { tw with isRTLMode := isHebrewChar ch })) ch
  if isHebrewChar ch then { tw4 with cursorPos := Cursor.moveleft cfg tw4.cursorPos }
  else { tw4 with cursorPos := Cursor.moveright cfg tw4.cursorPos }

/-- Models `TypeWriter.addCharacter(_chars, _x?, _y?)`.  With explicit
coordinates it pushes a single record at exactly that position and
synchronises the cursor; without, it iterates the text character by
character. -/
def addCharacter (cfg : TWCfg) (tw : TW) (text : String) (coords : Option (ℚ × ℚ)) : TW :=
  match coords with
  | some xy =>
    { tw with
      chars := tw.chars ++ [⟨text, xy.1, xy.2⟩]
      cursorPos := ⟨xy.1, xy.2⟩ }
  | none => text.data.foldl (addChar1 cfg) tw

/-- Models `TypeWriter.handleNewline`: respects the current RTL mode. -/
def handleNewline (cfg : TWCfg) (tw : TW) : TW :=
  if tw.isRTLMode then { tw with cursorPos := Cursor.newlineRTL cfg tw.cursorPos }
  else { tw with cursorPos := Cursor.newline cfg tw.cursorPos }

/-- Models `TypeWriter.reset`: clears the character list and re-initialises
the cursor (the RTL mode flag is not touched by the source's reset). -/
def twReset (cfg : TWCfg) (tw : TW) : TW :=
  { tw with chars := [], cursorPos := Cursor.resetC cfg }

/-- The serialized record object, exactly as `JSON.stringify` renders one
element of `chars.map(c => x/y/s)`: keys in insertion order x, y, s. -/
def fieldsChars (r : CharRec) : List Char :=
  quoteChars "x" ++ ':' :: ratReprC r.x ++
    ',' :: quoteChars "y" ++ ':' :: ratReprC r.y ++
    ',' :: quoteChars "s" ++ ':' :: quoteChars r.s

/-- One serialized record, braces included. -/
def recToJsonChars (r : CharRec) : List Char :=
  '\x7b' :: fieldsChars r ++ ['\x7d']

/-- Comma-separated serialized records. -/
def itemsChars : List CharRec → List Char
  | [] => []
  | [r] => recToJsonChars r
  | r :: rs => recToJsonChars r ++ ',' :: itemsChars rs

/-- The full serialized array. -/
def exportChars (recs : List CharRec) : List Char := '[' :: itemsChars recs ++ [']']

/-- Models `TypeWriter.export`. -/
def twExport (tw : TW) : String := String.mk (exportChars tw.chars)

/-- The JSON value a well-formed serialized record parses back to. -/
def recVal (r : CharRec) : Json :=
  .obj [("x", .num r.x), ("y", .num r.y), ("s", .str r.s)]

/-- Object field lookup used by the replay destructuring. -/
def getField (fs : List (String × Json)) (k : String) : Option Json := fs.lookup k

/-- One step of the import replay loop `for (const { s, x, y } of chars)`.
A record with a string s and numeric x and y replays through the
coordinate form of `addCharacter`; a string s with a missing coordinate
falls back to the iterating form (the source checks `!== undefined`).
Other element shapes make the loop body throw a `TypeError` in JS (caught
by the surrounding try); they are modelled as `none`, aborting the replay
with the state mutated so far. -/
def replayItem (cfg : TWCfg) (tw : TW) (item : Json) : Option TW :=
  match item with
  | .obj fs =>
    match getField fs "s", getField fs "x", getField fs "y" with
    | some (.str s), some (.num x), some (.num y) =>
      some (addCharacter cfg tw s (some (x, y)))
    | some (.str s), none, _ => some (addCharacter cfg tw s none)
    | some (.str s), _, none => some (addCharacter cfg tw s none)
    | _, _, _ => none
  | _ => none

/-- The import replay loop; an aborted step keeps the state mutated so far
(the source catches the exception after the partial loop). -/
def replayItems (cfg : TWCfg) : List Json → TW → TW
  | [], tw => tw
  | item :: rest, tw =>
    match replayItem cfg tw item with
    | some tw2 => replayItems cfg rest tw2
    | none => tw

/-- Models `TypeWriter.import`: parse failure is caught (document
untouched), a non-array payload returns early (document untouched), an
array payload resets then replays each entry. -/
def twImport (cfg : TWCfg) (tw : TW) (s : String) : TW :=
  match jsonParse s with
  | none => tw
  | some (.arr items) => replayItems cfg items (twReset cfg tw)
  | some _ => tw

end TypeWriter

/-- A fresh `TypeWriter` (the session-start singleton): empty document,
cursor at the origin, LTR mode. -/
def freshTW (cfg : TWCfg) : TW :=
  { chars := [], cursorPos := ⟨cfg.originX, cfg.originY⟩, isRTLMode := false }

/-- Public operations driving the 2D document model from the keyboard. -/
inductive TWOp where
  | type (c : Char)
  | newline
  | resetOp
deriving DecidableEq

/-- Apply one public operation. -/
def applyTWOp (cfg : TWCfg) (tw : TW) : TWOp → TW
  | .type c => TypeWriter.addCharacter cfg tw (String.singleton c) none
  | .newline => TypeWriter.handleNewline cfg tw
  | .resetOp => TypeWriter.twReset cfg tw

/-- Run a list of public operations on a fresh document. -/
def runTW (cfg : TWCfg) (ops : List TWOp) : TW := ops.foldl (applyTWOp cfg) (freshTW cfg)

/-! ## 3D scene model (src/TypewriterScene3D.ts)

Paper buffer (512x640 canvas), pen position, carriage offset, per-key
type-bar states and the strike/clear timers.  Canvas pixel data is a total
function on coordinates with a single idealised colour channel; glyph
rasterisation (`fillText` with jitter) and the ink-splatter dots are
abstract paper transformations supplied by `RenderCfg`, since font
rendering and `Math.random` live outside the embedding. -/

/-- Rational addition in explicitly computable form (provably equal to
`+`; used so that concrete scene runs evaluate inside the kernel). -/
def ratAdd (a b : ℚ) : ℚ :=
  mkRat (a.num * (b.den : Int) + b.num * (a.den : Int)) (a.den * b.den)

/-- Rational subtraction in explicitly computable form (provably equal to
`-`). -/
def ratSub (a b : ℚ) : ℚ :=
  mkRat (a.num * (b.den : Int) - b.num * (a.den : Int)) (a.den * b.den)

/-- The carriage step `0.15` of the source. -/
def carStep : ℚ := mkRat 3 20

namespace Scene3D

/-- One idealised colour channel of a canvas pixel. -/
abbrev Pixel := Int

/-- The paper canvas raster as a total function; only coordinates inside
the 512x640 canvas are meaningful. -/
abbrev Paper := Nat → Nat → Pixel

/-- Canvas width (`paperCanvas.width`). -/
def paperW : Nat := 512

/-- Canvas height (`paperCanvas.height`). -/
def paperH : Nat := 640

/-- `this.lineHeight`. -/
def lineHeight : Nat := 24

/-- `this.charWidth`. -/
def charWidth : Int := 14

/-- A `getImageData` snapshot: a rectangle of pixels with its size. -/
structure ImageData where
  w : Nat
  h : Nat
  data : Nat → Nat → Pixel

/-- Models `ctx.getImageData(x0, y0, w, h)`. -/
def getImageData (p : Paper) (x0 y0 w h : Nat) : ImageData :=
  ⟨w, h, fun x y => p (x0 + x) (y0 + y)⟩

/-- Models `ctx.putImageData(img, x0, y0)`. -/
def putImageData (p : Paper) (img : ImageData) (x0 y0 : Nat) : Paper :=
  fun x y =>
    if x0 ≤ x ∧ x < x0 + img.w ∧ y0 ≤ y ∧ y < y0 + img.h then
      img.data (x - x0) (y - y0)
    else p x y

/-- The cleared-paper background: base colour `#faf8f5` (channel value
250) plus per-pixel speckle noise clamped to [245, 255], exactly the
per-channel formula of `clearPaper`. -/
def bgPixel (noise : Nat → Nat → Int) (x y : Nat) : Pixel :=
  min 255 (max 245 (250 + noise x y))

/-- The canvas after `clearPaper`'s background fill and noise pass. -/
def clearSurface (noise : Nat → Nat → Int) (p : Paper) : Paper :=
  fun x y => if x < paperW ∧ y < paperH then bgPixel noise x y else p x y

/-- Abstract rendering collaborators: the speckle-noise draws and the two
paper-marking operations (glyph `fillText` with its jitter, and the
ink-splatter dots), which are outside the embedding. -/
structure RenderCfg where
  noise : Nat → Nat → Int
  glyph : String → Int → Int → Paper → Paper
  splatter : String → Int → Int → Paper → Paper

/-- Per-key type-bar animation state; rotations are stored in units of pi
(the source uses `-Math.PI / 6` and `Math.PI / 3`). -/
structure TypeBar where
  isAnimating : Bool
  targetRotation : ℚ
  currentRotation : ℚ
deriving DecidableEq

/-- Pending `setTimeout` callbacks of the strike sequencer: the 50 ms
strike (which prints and schedules the clear) and the 100 ms animation
clear. -/
inductive TimerEv where
  | strike (key ch : String) (due : Nat)
  | clearAnim (key : String) (due : Nat)
deriving DecidableEq

/-- Absolute due time of a timer. -/
def TimerEv.due : TimerEv → Nat
  | .strike _ _ d => d
  | .clearAnim _ d => d

/-- The scene state the claims concern: paper raster, pen position
(`paperPosition`), carriage offsets, type bars, recorded ink splatters,
pending timers and the current time. -/
structure Scene where
  paper : Paper
  penX : Int
  penY : Int
  carriageTargetX : ℚ
  carriageCurrentX : ℚ
  bars : List (String × TypeBar)
  splatters : List (String × Int × Int)
  timers : List TimerEv
  now : Nat

/-- The characters given type bars at setup. -/
def typeBarChars : String := "ABCDEFGHIJKLMNOPQRSTUVWXYZ0123456789"

/-- The initial type-bar map: resting, not animating. -/
def initBars : List (String × TypeBar) :=
  typeBarChars.data.map (fun c => (String.singleton c, ⟨false, mkRat 1 3, mkRat 1 3⟩))

/-- Update one keyed bar in place. -/
def setBar (key : String) (f : TypeBar → TypeBar) (bars : List (String × TypeBar)) :
    List (String × TypeBar) :=
  bars.map (fun kv => if kv.1 = key then (kv.1, f kv.2) else kv)

/-- Models `clearPaper`: repaint the background (with fresh noise) and
reset the typing position to (50, 80). -/
def clearPaperS (cfg : RenderCfg) (s : Scene) : Scene :=
  { s with paper := clearSurface cfg.noise s.paper, penX := 50, penY := 80 }

/-- Models `scrollPaper`: snapshot the region from two line-heights below
the top down to the bottom, clear the canvas, put the snapshot back at the
top, then park the pen 100 px above the bottom. -/
def scrollPaper (cfg : RenderCfg) (s : Scene) : Scene :=
  let img := getImageData s.paper 0 (lineHeight * 2) paperW (paperH - lineHeight * 2)
  let s1 := clearPaperS cfg s
  let s2 : Scene := { s1 with paper := putImageData s1.paper img 0 0 }
  { s2 with penY := (paperH : Int) - 100 }

/-- Models `handleNewline`: carriage return, one line down, and a scroll
when the pen passes the bottom margin. -/
def handleNewline (cfg : RenderCfg) (s : Scene) : Scene :=
  if (paperH : Int) - 50 < s.penY + (lineHeight : Int) then
    scrollPaper cfg
      { s with penX := 50, penY := s.penY + (lineHeight : Int), carriageTargetX := 0 }
  else { s with penX := 50, penY := s.penY + (lineHeight : Int), carriageTargetX := 0 }

/-- The auto line wrap check of `printCharacter` after the pen advance. -/
def autoWrap (cfg : RenderCfg) (s : Scene) : Scene :=
  if (paperW : Int) - 50 < s.penX then handleNewline cfg s else s

/-- The carriage-target nudge at the end of `printCharacter`: one step of
0.15 in the negative direction, clamped at -3. -/
def carriageNudge (s : Scene) : Scene :=
  { s with
    carriageTargetX :=
      if ratSub s.carriageTargetX carStep < -3 then -3 else ratSub s.carriageTargetX carStep }

def printCharacter (cfg : RenderCfg) (ch : String) (s : Scene) : Scene :=
  if ch = "\n" ∨ ch = "Enter" then handleNewline cfg s
  else
    carriageNudge
      (autoWrap cfg
        { s with paper := cfg.glyph ch s.penX s.penY s.paper, penX := s.penX + charWidth })

/-- Models `createInkSplatter`: splatter dots at the (already advanced)
pen position and the splatter log entry. -/
def createInkSplatter (cfg : RenderCfg) (ch : String) (s : Scene) : Scene :=
  { s with
    paper := cfg.splatter ch s.penX s.penY s.paper
    splatters := s.splatters ++ [(ch, s.penX, s.penY)] }

/-- Models `animateTypeBarStrike`: set the guard and the strike deflection
target, and schedule the 50 ms strike callback. -/
def animateTypeBarStrike (key ch : String) (s : Scene) : Scene :=
  { s with
    bars := setBar key (fun b => { b with isAnimating := true, targetRotation := mkRat (-1) 6 }) s.bars
    timers := s.timers ++ [.strike key ch (s.now + 50)] }

/-- Models `char.toUpperCase()` on the key strings the scene handles
(character-wise upper-casing). -/
def toUpperStr (s : String) : String := String.mk (s.data.map Char.toUpper)

/-- Models `typeCharacter`: a bar that exists and is not mid-stroke gets
the strike animation (which prints from its timer); otherwise the
character is printed immediately.  The key-mesh dip and the click sound
are purely visual/audio side effects and are omitted. -/
def typeCharacter (cfg : RenderCfg) (ch : String) (s : Scene) : Scene :=
  let upper := toUpperStr ch
  match s.bars.lookup upper with
  | some b =>
    if !b.isAnimating then animateTypeBarStrike upper ch s
    else printCharacter cfg ch s
  | none => printCharacter cfg ch s

/-- Fire one due timer callback: the strike prints the character, adds the
ink splatter, sets the return target and schedules the clear; the clear
drops the guard. -/
def fireTimer (cfg : RenderCfg) (ev : TimerEv) (s : Scene) : Scene :=
  match ev with
  | .strike key ch due =>
    let s1 := printCharacter cfg ch s
    let s2 := createInkSplatter cfg ch s1
    let s3 : Scene :=
      { s2 with bars := setBar key (fun b => { b with targetRotation := mkRat 1 3 }) s2.bars }
    { s3 with timers := s3.timers ++ [.clearAnim key (due + 100)] }
  | .clearAnim key _ =>
    { s with bars := setBar key (fun b => { b with isAnimating := false }) s.bars }

/-- Extract the earliest-due pending timer (insertion order breaks ties,
as in the JS event loop). -/
def pickEarliest : List TimerEv → Option (TimerEv × List TimerEv)
  | [] => none
  | e :: rest =>
    match pickEarliest rest with
    | none => some (e, [])
    | some er => if er.1.due < e.due then some (er.1, e :: er.2) else some (e, rest)

/-- Fire, in due order, every timer due at or before time `t`. -/
def fireDue (cfg : RenderCfg) (t : Nat) : Nat → Scene → Scene
  | 0, s => s
  | fuel + 1, s =>
    match pickEarliest s.timers with
    | none => s
    | some er =>
      if er.1.due ≤ t then
        fireDue cfg t fuel (fireTimer cfg er.1 { s with timers := er.2, now := er.1.due })
      else s

/-- Models `backspace`: one character width back, floored at the left
margin origin 50; the carriage target moves one step toward zero, capped
at zero.  Nothing else is touched. -/
def backspace (s : Scene) : Scene :=
  { s with
    penX := max 50 (s.penX - charWidth)
    carriageTargetX := min 0 (ratAdd s.carriageTargetX carStep) }

/-- Models `reset`: clear the paper and zero the carriage. -/
def resetS (cfg : RenderCfg) (s : Scene) : Scene :=
  { clearPaperS cfg s with carriageTargetX := 0, carriageCurrentX := 0 }

/-- The scene as constructed: cleared paper over a zeroed canvas, pen at
(50, 80), carriage at rest, all bars resting, no pending timers. -/
def initScene (cfg : RenderCfg) : Scene :=
  { paper := clearSurface cfg.noise (fun _ _ => 0)
    penX := 50
    penY := 80
    carriageTargetX := 0
    carriageCurrentX := 0
    bars := initBars
    splatters := []
    timers := []
    now := 0 }

/-- External events driving the scene: a key press at a wall-clock time
(due timers fire first, as the event loop would), letting the next pending
timer fire, and the public newline/backspace/reset entry points. -/
inductive SceneOp where
  | press (ch : String) (t : Nat)
  | tick
  | newlineOp
  | back
  | resetOp
deriving DecidableEq

/-- Apply one scene event. -/
def applySceneOp (cfg : RenderCfg) (s : Scene) : SceneOp → Scene
  | .press ch t =>
    typeCharacter cfg ch { fireDue cfg t (2 * s.timers.length + 2) s with now := t }
  | .tick =>
    match pickEarliest s.timers with
    | some er => fireTimer cfg er.1 { s with timers := er.2, now := er.1.due }
    | none => s
  | .newlineOp => handleNewline cfg s
  | .back => backspace s
  | .resetOp => resetS cfg s

/-- Run scene events from the freshly constructed scene. -/
def runScene (cfg : RenderCfg) (ops : List SceneOp) : Scene :=
  ops.foldl (applySceneOp cfg) (initScene cfg)

end Scene3D

/-! ## Concrete instances used by witnesses and counterexamples -/

/-- A concrete cursor configuration (margins are viewport-dependent in the
source; any fixed instance exercises the model). -/
def cfgC : TWCfg :=
  { leftMargin := 100, rightMargin := 700, letterWidth := 26, lineHeight := 40
    originX := 100, originY := 0 }

/-- A concrete rendering configuration: zero noise, a glyph mark that inks
pixel value 999 at the pen position, no splatter ink. -/
def cfgW : Scene3D.RenderCfg :=
  { noise := fun _ _ => 0
    glyph := fun _ gx gy p => fun x y => if x = gx.toNat ∧ y = gy.toNat then 999 else p x y
    splatter := fun _ _ _ p => p }

/-! ## Invariant and well-formedness predicates -/

/-- The reachable-state invariant of the 3D scene: the carriage target
stays in [-3, 0] and the pen's vertical position stays at or above the
origin and at or below the bottom margin. -/
def SceneInv (s : Scene3D.Scene) : Prop :=
  -3 ≤ s.carriageTargetX ∧ s.carriageTargetX ≤ 0 ∧
    0 ≤ s.penY ∧ s.penY ≤ (Scene3D.paperH : Int) - 50

/-- Printable characters for the round-trip claim: at or above the space
character (control characters are what `JSON.stringify` escapes
specially). -/
def printableC (c : Char) : Bool := 0x20 ≤ c.toNat

/-- Operations allowed by the round-trip claim: typed characters are
printable. -/
def TWOpOk : TWOp → Bool
  | .type c => printableC c
  | .newline => true
  | .resetOp => true

/-- An integral rational (denominator one); cursor configurations whose
fields are integral keep every placed coordinate integral. -/
def IsIntQ (q : ℚ) : Prop := q.den = 1

/-- All cursor-engine configuration fields integral. -/
def IntegralCfg (cfg : TWCfg) : Prop :=
  IsIntQ cfg.leftMargin ∧ IsIntQ cfg.rightMargin ∧ IsIntQ cfg.letterWidth ∧
    IsIntQ cfg.lineHeight ∧ IsIntQ cfg.originX ∧ IsIntQ cfg.originY

/-- A serialisable placed-character record: integral coordinates and
printable text. -/
def WFRec (r : CharRec) : Prop :=
  IsIntQ r.x ∧ IsIntQ r.y ∧ ∀ c ∈ r.s.data, printableC c = true

/-- Document-model well-formedness carried through a typed run. -/
def TWWF (tw : TW) : Prop :=
  (∀ r ∈ tw.chars, WFRec r) ∧ IsIntQ tw.cursorPos.x ∧ IsIntQ tw.cursorPos.y

/-- The cursor-margin invariant. -/
def TWMarginInv (cfg : TWCfg) (tw : TW) : Prop :=
  cfg.leftMargin ≤ tw.cursorPos.x ∧ tw.cursorPos.x ≤ cfg.rightMargin

/-! ## Basic lemmas about the computable rational operations -/

theorem ratAdd_eq (a b : ℚ) : ratAdd a b = a + b := (Rat.add_def' a b).symm

theorem ratSub_eq (a b : ℚ) : ratSub a b = a - b := (Rat.sub_def' a b).symm

theorem carStep_eq : carStep = 3 / 20 := by
  rw [carStep, Rat.mkRat_eq_div]
  norm_num

namespace Scene3D

/-! ## Scene: pixel-level scroll characterisation -/

theorem paperW_cast : (paperW : Int) = 512 := rfl

theorem paperH_cast : (paperH : Int) = 640 := rfl

theorem lineHeight_cast : (lineHeight : Int) = 24 := rfl

theorem scrollPaper_paper (cfg : RenderCfg) (s : Scene) (x y : Nat)
    (hx : x < paperW) (hy : y < paperH) :
    (scrollPaper cfg s).paper x y =
      if y < paperH - lineHeight * 2 then s.paper x (y + lineHeight * 2)
      else bgPixel cfg.noise x y := by
  show putImageData (clearSurface cfg.noise s.paper)
      (getImageData s.paper 0 (lineHeight * 2) paperW (paperH - lineHeight * 2)) 0 0 x y = _
  simp only [putImageData, getImageData, clearSurface, Nat.sub_zero, Nat.zero_add]
  simp only [paperW, paperH, lineHeight] at *
  split_ifs <;> first
  | rfl
  | (exfalso; omega)
  | (rw [Nat.add_comm])

theorem scrollPaper_penY (cfg : RenderCfg) (s : Scene) :
    (scrollPaper cfg s).penY = (paperH : Int) - 100 := rfl

theorem scrollPaper_carriage (cfg : RenderCfg) (s : Scene) :
    (scrollPaper cfg s).carriageTargetX = s.carriageTargetX := rfl

theorem scrollPaper_bars (cfg : RenderCfg) (s : Scene) :
    (scrollPaper cfg s).bars = s.bars := rfl

theorem scrollPaper_timers (cfg : RenderCfg) (s : Scene) :
    (scrollPaper cfg s).timers = s.timers := rfl

/-! ## Scene: single-step facts feeding the reachability invariants -/

theorem carriage_clamp_bounds {c : ℚ} (hc : -3 ≤ c ∧ c ≤ 0) :
    -3 ≤ (if ratSub c carStep < -3 then (-3 : ℚ) else ratSub c carStep) ∧
      (if ratSub c carStep < -3 then (-3 : ℚ) else ratSub c carStep) ≤ 0 := by
  rw [ratSub_eq, carStep_eq]
  split_ifs with h
  · exact ⟨le_refl _, by norm_num⟩
  · exact ⟨not_lt.mp h, by linarith [hc.2]⟩

theorem sceneInv_handleNewline (cfg : RenderCfg) (s : Scene) (h : SceneInv s) :
    SceneInv (handleNewline cfg s) := by
  obtain ⟨-, -, hy0, -⟩ := h
  unfold handleNewline
  split_ifs with hs
  · refine ⟨?_, ?_, ?_, ?_⟩
    · rw [scrollPaper_carriage]
      norm_num
    · rw [scrollPaper_carriage]
    · rw [scrollPaper_penY, paperH_cast]
      norm_num
    · rw [scrollPaper_penY, paperH_cast]
      norm_num
  · have hs' : s.penY + (lineHeight : Int) ≤ (paperH : Int) - 50 := not_lt.mp hs
    refine ⟨by norm_num, le_refl 0, ?_, hs'⟩
    show (0 : Int) ≤ s.penY + (lineHeight : Int)
    rw [lineHeight_cast]
    omega

theorem sceneInv_printCharacter (cfg : RenderCfg) (ch : String) (s : Scene) (h : SceneInv s) :
    SceneInv (printCharacter cfg ch s) := by
  unfold printCharacter
  split_ifs with hch
  · exact sceneInv_handleNewline cfg s h
  · have h2 : SceneInv
        { s with paper := cfg.glyph ch s.penX s.penY s.paper, penX := s.penX + charWidth } :=
      ⟨h.1, h.2.1, h.2.2.1, h.2.2.2⟩
    have h3 : SceneInv (autoWrap cfg
        { s with paper := cfg.glyph ch s.penX s.penY s.paper, penX := s.penX + charWidth }) := by
      unfold autoWrap
      split_ifs
      · exact sceneInv_handleNewline cfg _ h2
      · exact h2
    have h4 := carriage_clamp_bounds ⟨h3.1, h3.2.1⟩
    exact ⟨h4.1, h4.2, h3.2.2.1, h3.2.2.2⟩

theorem sceneInv_fireTimer (cfg : RenderCfg) (ev : TimerEv) (s : Scene) (h : SceneInv s) :
    SceneInv (fireTimer cfg ev s) := by
  cases ev with
  | strike key ch due => exact sceneInv_printCharacter cfg ch s h
  | clearAnim key due => exact ⟨h.1, h.2.1, h.2.2.1, h.2.2.2⟩

theorem sceneInv_fireDue (cfg : RenderCfg) (t : Nat) (fuel : Nat) (s : Scene) (h : SceneInv s) :
    SceneInv (fireDue cfg t fuel s) := by
  induction fuel generalizing s with
  | zero => exact h
  | succ n ih =>
    unfold fireDue
    cases hp : pickEarliest s.timers with
    | none => exact h
    | some er =>
      dsimp only
      split_ifs
      · exact ih _ (sceneInv_fireTimer cfg er.1 _ ⟨h.1, h.2.1, h.2.2.1, h.2.2.2⟩)
      · exact h

theorem sceneInv_typeCharacter (cfg : RenderCfg) (ch : String) (s : Scene) (h : SceneInv s) :
    SceneInv (typeCharacter cfg ch s) := by
  unfold typeCharacter
  dsimp only
  cases hl : List.lookup (toUpperStr ch) s.bars with
  | none =>
    simp only [hl]
    exact sceneInv_printCharacter cfg ch s h
  | some b =>
    simp only [hl]
    split_ifs
    · exact ⟨h.1, h.2.1, h.2.2.1, h.2.2.2⟩
    · exact sceneInv_printCharacter cfg ch s h

theorem sceneInv_backspace (s : Scene) (h : SceneInv s) : SceneInv (backspace s) := by
  obtain ⟨hc1, hc2, hy0, hy1⟩ := h
  refine ⟨?_, min_le_left _ _, hy0, hy1⟩
  show -3 ≤ min 0 (ratAdd s.carriageTargetX carStep)
  rw [ratAdd_eq, carStep_eq]
  rcases le_total (0 : ℚ) (s.carriageTargetX + 3 / 20) with h | h
  · rw [min_eq_left h]
    norm_num
  · rw [min_eq_right h]
    linarith

theorem sceneInv_resetS (cfg : RenderCfg) (s : Scene) : SceneInv (resetS cfg s) :=
  ⟨show (-3 : ℚ) ≤ 0 by norm_num, le_refl 0,
    show (0 : Int) ≤ 80 by norm_num,
    show (80 : Int) ≤ (paperH : Int) - 50 by rw [paperH_cast]; norm_num⟩

theorem sceneInv_init (cfg : RenderCfg) : SceneInv (initScene cfg) :=
  ⟨show (-3 : ℚ) ≤ 0 by norm_num, le_refl 0,
    show (0 : Int) ≤ 80 by norm_num,
    show (80 : Int) ≤ (paperH : Int) - 50 by rw [paperH_cast]; norm_num⟩

theorem sceneInv_applyOp (cfg : RenderCfg) (s : Scene) (op : SceneOp) (h : SceneInv s) :
    SceneInv (applySceneOp cfg s op) := by
  cases op with
  | press ch t =>
    have hf := sceneInv_fireDue cfg t (2 * s.timers.length + 2) s h
    exact sceneInv_typeCharacter cfg ch _ ⟨hf.1, hf.2.1, hf.2.2.1, hf.2.2.2⟩
  | tick =>
    unfold applySceneOp
    dsimp only
    cases hp : pickEarliest s.timers with
    | none => simp only [hp]; exact h
    | some er =>
      simp only [hp]
      exact sceneInv_fireTimer cfg er.1 _ ⟨h.1, h.2.1, h.2.2.1, h.2.2.2⟩
  | newlineOp => exact sceneInv_handleNewline cfg s h
  | back => exact sceneInv_backspace s h
  | resetOp => exact sceneInv_resetS cfg s

theorem sceneInv_runScene (cfg : RenderCfg) (ops : List SceneOp) :
    SceneInv (runScene cfg ops) := by
  suffices h : ∀ s, SceneInv s → SceneInv (ops.foldl (applySceneOp cfg) s) from
    h _ (sceneInv_init cfg)
  induction ops with
  | nil => exact fun s hs => hs
  | cons op rest ih => exact fun s hs => ih _ (sceneInv_applyOp cfg s op hs)

/-! ## Scene: carriage-offset step equations -/

theorem handleNewline_carriage (cfg : RenderCfg) (s : Scene) :
    (handleNewline cfg s).carriageTargetX = 0 := by
  unfold handleNewline
  split_ifs
  · rw [scrollPaper_carriage]
  · rfl

theorem autoWrap_carriage (cfg : RenderCfg) (s : Scene) :
    (autoWrap cfg s).carriageTargetX =
      if (paperW : Int) - 50 < s.penX then 0 else s.carriageTargetX := by
  unfold autoWrap
  split_ifs with h
  · rw [handleNewline_carriage]
  · rfl

theorem autoWrap_penY (cfg : RenderCfg) (s : Scene) (h : SceneInv s) :
    0 ≤ (autoWrap cfg s).penY ∧ (autoWrap cfg s).penY ≤ (paperH : Int) - 50 := by
  have := sceneInv_printCharacter
  unfold autoWrap
  split_ifs
  · have h2 := sceneInv_handleNewline cfg s h
    exact ⟨h2.2.2.1, h2.2.2.2⟩
  · exact ⟨h.2.2.1, h.2.2.2⟩

theorem printCharacter_carriage (cfg : RenderCfg) (ch : String) (s : Scene)
    (h1 : ch ≠ "\n") (h2 : ch ≠ "Enter") :
    (printCharacter cfg ch s).carriageTargetX =
      if ratSub (if (paperW : Int) - 50 < s.penX + charWidth then 0 else s.carriageTargetX)
          carStep < -3 then -3
      else
        ratSub (if (paperW : Int) - 50 < s.penX + charWidth then 0 else s.carriageTargetX)
          carStep := by
  unfold printCharacter
  rw [if_neg (by simp [h1, h2])]
  show (if ratSub (autoWrap cfg _).carriageTargetX carStep < -3 then (-3 : ℚ)
    else ratSub (autoWrap cfg _).carriageTargetX carStep) = _
  rw [autoWrap_carriage]

theorem printCharacter_bars (cfg : RenderCfg) (ch : String) (s : Scene) :
    (printCharacter cfg ch s).bars = s.bars := by
  unfold printCharacter carriageNudge autoWrap handleNewline
  split_ifs <;> rfl

theorem printCharacter_timers (cfg : RenderCfg) (ch : String) (s : Scene) :
    (printCharacter cfg ch s).timers = s.timers := by
  unfold printCharacter carriageNudge autoWrap handleNewline
  split_ifs <;> rfl

end Scene3D

/-! ## Claims about the 3D scene (C5, C6, C7, C9, C10) -/

/-- C6: `scrollPaper` copies the pixel region starting two line-heights
below the top of the buffer down to the bottom onto a freshly cleared
surface anchored at the top, repositions the vertical write cursor to a
fixed offset (100 px) from the bottom, preserves every previously drawn
pixel inside the shifted window (it reappears exactly two line-heights
higher), and discards exactly the rows above the 2-line-height shift (all
other pixels are fresh background). -/
theorem c6_scroll_copy (cfg : Scene3D.RenderCfg) (s : Scene3D.Scene) (x y : Nat)
    (hx : x < Scene3D.paperW) (hy : y < Scene3D.paperH) :
    ((Scene3D.scrollPaper cfg s).paper x y =
      if y < Scene3D.paperH - Scene3D.lineHeight * 2 then
        s.paper x (y + Scene3D.lineHeight * 2)
      else Scene3D.bgPixel cfg.noise x y) ∧
    (Scene3D.scrollPaper cfg s).penY = (Scene3D.paperH : Int) - 100 :=
  ⟨Scene3D.scrollPaper_paper cfg s x y hx hy, Scene3D.scrollPaper_penY cfg s⟩

/-- Witness for C6 at a concrete surface and pixel. -/
theorem c6_scroll_copy_witness :
    ((Scene3D.scrollPaper cfgW (Scene3D.initScene cfgW)).paper 3 5 =
      if 5 < Scene3D.paperH - Scene3D.lineHeight * 2 then
        (Scene3D.initScene cfgW).paper 3 (5 + Scene3D.lineHeight * 2)
      else Scene3D.bgPixel cfgW.noise 3 5) ∧
    (Scene3D.scrollPaper cfgW (Scene3D.initScene cfgW)).penY = (Scene3D.paperH : Int) - 100 :=
  c6_scroll_copy cfgW (Scene3D.initScene cfgW) 3 5 (by decide) (by decide)

set_option maxRecDepth 40000 in
/-- C7 counterexample: in the reachable state below the pending newline
scrolls, and a previously drawn pixel (value 999, inked at pen position
(50, 80)) reappears two line-heights higher, at row 32 — not one
line-height higher at row 56, where the claim as stated would put it. -/
theorem c7_counterexample :
    ((Scene3D.paperH : Int) - 50 <
      (Scene3D.runScene cfgW
          ([.press "a" 0, .tick] ++ List.replicate 21 .newlineOp)).penY +
        (Scene3D.lineHeight : Int)) ∧
    (Scene3D.runScene cfgW
        ([.press "a" 0, .tick] ++ List.replicate 21 .newlineOp)).paper 50 80 = 999 ∧
    (Scene3D.runScene cfgW
        ([.press "a" 0, .tick] ++ List.replicate 22 .newlineOp)).paper 50 32 = 999 ∧
    ¬ (Scene3D.runScene cfgW
        ([.press "a" 0, .tick] ++ List.replicate 22 .newlineOp)).paper 50 56 = 999 := by
  refine ⟨by decide, by decide, by decide, by decide⟩

/-- C7 (amended): for every reachable paper-buffer state the vertical
write position stays inside the visible window height, and when a newline
pushes the pen past the bottom margin the window content is shifted upward
by TWO line-heights (48 px, not one), the pen is reset to the
bottom-anchored offset height - 100, content above the 2-line-height shift
is discarded and content below it is preserved. -/
theorem c7_penY_window_scroll (cfg : Scene3D.RenderCfg) (ops : List Scene3D.SceneOp)
    (s : Scene3D.Scene) (x y : Nat) :
    (0 ≤ (Scene3D.runScene cfg ops).penY ∧
      (Scene3D.runScene cfg ops).penY < (Scene3D.paperH : Int)) ∧
    ((Scene3D.paperH : Int) - 50 < s.penY + (Scene3D.lineHeight : Int) →
      x < Scene3D.paperW → y < Scene3D.paperH →
      (Scene3D.handleNewline cfg s).penY = (Scene3D.paperH : Int) - 100 ∧
      (Scene3D.handleNewline cfg s).paper x y =
        if y < Scene3D.paperH - Scene3D.lineHeight * 2 then
          s.paper x (y + Scene3D.lineHeight * 2)
        else Scene3D.bgPixel cfg.noise x y) := by
  constructor
  · have h := Scene3D.sceneInv_runScene cfg ops
    refine ⟨h.2.2.1, ?_⟩
    have := h.2.2.2
    rw [Scene3D.paperH_cast] at *
    omega
  · intro hpast hx hy
    unfold Scene3D.handleNewline
    rw [if_pos hpast]
    exact ⟨Scene3D.scrollPaper_penY cfg _, Scene3D.scrollPaper_paper cfg _ x y hx hy⟩

/-- Witness for C7 at a concrete overful state and pixel. -/
theorem c7_penY_window_scroll_witness :
    (0 ≤ (Scene3D.runScene cfgW []).penY ∧
      (Scene3D.runScene cfgW []).penY < (Scene3D.paperH : Int)) ∧
    ((Scene3D.handleNewline cfgW { Scene3D.initScene cfgW with penY := 600 }).penY =
        (Scene3D.paperH : Int) - 100 ∧
      (Scene3D.handleNewline cfgW { Scene3D.initScene cfgW with penY := 600 }).paper 7 9 =
        if 9 < Scene3D.paperH - Scene3D.lineHeight * 2 then
          ({ Scene3D.initScene cfgW with penY := 600 } : Scene3D.Scene).paper 7 (9 + Scene3D.lineHeight * 2)
        else Scene3D.bgPixel cfgW.noise 7 9) :=
  ⟨(c7_penY_window_scroll cfgW [] { Scene3D.initScene cfgW with penY := 600 } 7 9).1,
    (c7_penY_window_scroll cfgW [] { Scene3D.initScene cfgW with penY := 600 } 7 9).2
      (by decide) (by decide) (by decide)⟩

/-- C9: each printed (non-newline) character applies one fixed carriage
step of 0.15 in the negative direction with the result clamped at the
fixed minimum -3 (a character that triggers the auto line wrap first gets
the newline's reset to zero); every newline resets the carriage target to
zero; and in every reachable state the carriage target lies between -3 and
0 inclusive. -/
theorem c9_carriage_target (cfg : Scene3D.RenderCfg) (ch : String) (s : Scene3D.Scene)
    (ops : List Scene3D.SceneOp) :
    (ch ≠ "\n" → ch ≠ "Enter" →
      (Scene3D.printCharacter cfg ch s).carriageTargetX =
        if (if (Scene3D.paperW : Int) - 50 < s.penX + Scene3D.charWidth then (0 : ℚ)
            else s.carriageTargetX) - 0.15 < -3 then -3
        else
          (if (Scene3D.paperW : Int) - 50 < s.penX + Scene3D.charWidth then (0 : ℚ)
            else s.carriageTargetX) - 0.15) ∧
    (Scene3D.handleNewline cfg s).carriageTargetX = 0 ∧
    (-3 ≤ (Scene3D.runScene cfg ops).carriageTargetX ∧
      (Scene3D.runScene cfg ops).carriageTargetX ≤ 0) := by
  refine ⟨?_, Scene3D.handleNewline_carriage cfg s, ?_⟩
  · intro h1 h2
    rw [Scene3D.printCharacter_carriage cfg ch s h1 h2, ratSub_eq, carStep_eq]
    norm_num
  · have h := Scene3D.sceneInv_runScene cfg ops
    exact ⟨h.1, h.2.1⟩

/-- Witness for C9 at a concrete character and state. -/
theorem c9_carriage_target_witness :
    (Scene3D.printCharacter cfgW "A" (Scene3D.initScene cfgW)).carriageTargetX =
      (if (if (Scene3D.paperW : Int) - 50 <
              (Scene3D.initScene cfgW).penX + Scene3D.charWidth then (0 : ℚ)
          else (Scene3D.initScene cfgW).carriageTargetX) - 0.15 < -3 then -3
      else
        (if (Scene3D.paperW : Int) - 50 <
              (Scene3D.initScene cfgW).penX + Scene3D.charWidth then (0 : ℚ)
          else (Scene3D.initScene cfgW).carriageTargetX) - 0.15) :=
  (c9_carriage_target cfgW "A" (Scene3D.initScene cfgW) []).1 (by decide) (by decide)

/-- C10: `backspace` moves the horizontal write position one character
width back but never below the left-margin origin 50, leaves the vertical
position untouched, modifies no pixel of the paper surface, and moves the
carriage target one 0.15 step toward zero without exceeding zero. -/
theorem c10_backspace_frame (s : Scene3D.Scene) :
    (Scene3D.backspace s).penX = max 50 (s.penX - Scene3D.charWidth) ∧
    50 ≤ (Scene3D.backspace s).penX ∧
    (Scene3D.backspace s).penY = s.penY ∧
    (Scene3D.backspace s).paper = s.paper ∧
    (Scene3D.backspace s).carriageTargetX = min 0 (s.carriageTargetX + 0.15) ∧
    (Scene3D.backspace s).carriageTargetX ≤ 0 := by
  refine ⟨rfl, le_max_left _ _, rfl, rfl, ?_, min_le_left _ _⟩
  show min 0 (ratAdd s.carriageTargetX carStep) = _
  rw [ratAdd_eq, carStep_eq]
  norm_num

/-- C5: invoking `typeCharacter` while the key's type bar is still
animating skips the bar animation entirely (the state is exactly that of a
direct `printCharacter`, printing never blocked) and `printCharacter`
itself never touches the bars or the timers, so the first strike's
set-then-clear timer discipline proceeds untouched.  Concretely, pressing
"A" twice within the first strike's 150 ms and then letting the two timers
fire prints the glyph exactly twice (at pen positions 50 and 64), ends
with the "A" bar back at rest and not animating, an empty timer queue, and
the carriage advanced two steps. -/
theorem c5_strike_guard :
    (∀ (cfg : Scene3D.RenderCfg) (ch : String) (s : Scene3D.Scene) (b : Scene3D.TypeBar),
      List.lookup (Scene3D.toUpperStr ch) s.bars = some b → b.isAnimating = true →
      Scene3D.typeCharacter cfg ch s = Scene3D.printCharacter cfg ch s) ∧
    (∀ (cfg : Scene3D.RenderCfg) (ch : String) (s : Scene3D.Scene),
      (Scene3D.printCharacter cfg ch s).bars = s.bars ∧
      (Scene3D.printCharacter cfg ch s).timers = s.timers) ∧
    ((Scene3D.runScene cfgW
        [.press "A" 0, .press "A" 10, .tick, .tick]).paper =
      cfgW.splatter "A" 78 80 (cfgW.glyph "A" 64 80 (cfgW.glyph "A" 50 80
        (Scene3D.clearSurface cfgW.noise fun _ _ => 0))) ∧
    (Scene3D.runScene cfgW [.press "A" 0, .press "A" 10, .tick, .tick]).penX = 78 ∧
    (Scene3D.runScene cfgW [.press "A" 0, .press "A" 10, .tick, .tick]).bars =
      Scene3D.initBars ∧
    (Scene3D.runScene cfgW [.press "A" 0, .press "A" 10, .tick, .tick]).timers = [] ∧
    (Scene3D.runScene cfgW [.press "A" 0, .press "A" 10, .tick, .tick]).carriageTargetX =
      mkRat (-3) 10 ∧
    (Scene3D.runScene cfgW [.press "A" 0, .press "A" 10, .tick, .tick]).splatters =
      [("A", 78, 80)]) := by
  refine ⟨?_, ?_, rfl, by decide, by decide, by decide, by decide, by decide⟩
  · intro cfg ch s b hl hanim
    unfold Scene3D.typeCharacter
    dsimp only
    simp [hl, hanim]
  · intro cfg ch s
    exact ⟨Scene3D.printCharacter_bars cfg ch s, Scene3D.printCharacter_timers cfg ch s⟩

/-- Witness for C5: a state with the "A" bar mid-stroke, where a second
press prints directly. -/
theorem c5_strike_guard_witness :
    Scene3D.typeCharacter cfgW "A"
        (Scene3D.animateTypeBarStrike "A" "A" (Scene3D.initScene cfgW)) =
      Scene3D.printCharacter cfgW "A"
        (Scene3D.animateTypeBarStrike "A" "A" (Scene3D.initScene cfgW)) :=
  c5_strike_guard.1 cfgW "A" (Scene3D.animateTypeBarStrike "A" "A" (Scene3D.initScene cfgW))
    ⟨true, mkRat (-1) 6, mkRat 1 3⟩ (by decide) rfl

/-! ## TypeWriter: cursor margin invariant (C3) -/

namespace Cursor

theorem marginInv_moveright (cfg : TWCfg) (p : V2) (hw : 0 ≤ cfg.letterWidth)
    (hLR : cfg.leftMargin ≤ cfg.rightMargin)
    (h : cfg.leftMargin ≤ p.x ∧ p.x ≤ cfg.rightMargin) :
    cfg.leftMargin ≤ (moveright cfg p).x ∧ (moveright cfg p).x ≤ cfg.rightMargin := by
  unfold moveright
  dsimp only
  split_ifs with hx
  · exact ⟨le_refl _, hLR⟩
  · constructor
    · show cfg.leftMargin ≤ p.x + cfg.letterWidth
      linarith [h.1]
    · show p.x + cfg.letterWidth ≤ cfg.rightMargin
      exact not_lt.mp hx

theorem marginInv_moveleft (cfg : TWCfg) (p : V2) (hw : 0 ≤ cfg.letterWidth)
    (hLR : cfg.leftMargin ≤ cfg.rightMargin)
    (h : cfg.leftMargin ≤ p.x ∧ p.x ≤ cfg.rightMargin) :
    cfg.leftMargin ≤ (moveleft cfg p).x ∧ (moveleft cfg p).x ≤ cfg.rightMargin := by
  unfold moveleft
  dsimp only
  split_ifs with hx
  · exact ⟨hLR, le_refl _⟩
  · constructor
    · show cfg.leftMargin ≤ p.x - cfg.letterWidth
      exact not_lt.mp hx
    · show p.x - cfg.letterWidth ≤ cfg.rightMargin
      linarith [h.2]

end Cursor

theorem marginInv_snapRTL (cfg : TWCfg) (isRTL wasRTL : Bool) (tw : TW)
    (hLR : cfg.leftMargin ≤ cfg.rightMargin) (h : TWMarginInv cfg tw) :
    TWMarginInv cfg (TypeWriter.snapRTL cfg isRTL wasRTL tw) := by
  unfold TypeWriter.snapRTL
  split_ifs
  · exact ⟨hLR, le_refl _⟩
  · exact h

theorem marginInv_snapLTR (cfg : TWCfg) (isRTL wasRTL : Bool) (tw : TW)
    (hLR : cfg.leftMargin ≤ cfg.rightMargin) (h : TWMarginInv cfg tw) :
    TWMarginInv cfg (TypeWriter.snapLTR cfg isRTL wasRTL tw) := by
  unfold TypeWriter.snapLTR
  split_ifs
  · exact ⟨le_refl _, hLR⟩
  · exact h

theorem marginInv_addChar1 (cfg : TWCfg) (tw : TW) (ch : Char) (hw : 0 ≤ cfg.letterWidth)
    (hLR : cfg.leftMargin ≤ cfg.rightMargin) (h : TWMarginInv cfg tw) :
    TWMarginInv cfg (TypeWriter.addChar1 cfg tw ch) := by
  have h3 : TWMarginInv cfg
      (TypeWriter.placeChar
        (TypeWriter.snapLTR cfg (isHebrewChar ch) tw.isRTLMode
          (TypeWriter.snapRTL cfg (isHebrewChar ch) tw.isRTLMode
            { tw with isRTLMode := isHebrewChar ch })) ch) :=
    marginInv_snapLTR cfg _ _ _ hLR
      (marginInv_snapRTL cfg _ _ _ hLR ⟨h.1, h.2⟩)
  unfold TypeWriter.addChar1
  dsimp only
  split_ifs
  · exact Cursor.marginInv_moveleft cfg _ hw hLR ⟨h3.1, h3.2⟩
  · exact Cursor.marginInv_moveright cfg _ hw hLR ⟨h3.1, h3.2⟩

theorem marginInv_applyTWOp (cfg : TWCfg) (tw : TW) (op : TWOp) (hw : 0 ≤ cfg.letterWidth)
    (hLR : cfg.leftMargin ≤ cfg.rightMargin) (hoL : cfg.leftMargin ≤ cfg.originX)
    (hoR : cfg.originX ≤ cfg.rightMargin) (h : TWMarginInv cfg tw) :
    TWMarginInv cfg (applyTWOp cfg tw op) := by
  cases op with
  | type c =>
    show TWMarginInv cfg (TypeWriter.addCharacter cfg tw (String.singleton c) none)
    have hone : (String.singleton c).data = [c] := rfl
    show TWMarginInv cfg ((String.singleton c).data.foldl (TypeWriter.addChar1 cfg) tw)
    rw [hone]
    exact marginInv_addChar1 cfg tw c hw hLR h
  | newline =>
    show TWMarginInv cfg (TypeWriter.handleNewline cfg tw)
    unfold TypeWriter.handleNewline Cursor.newline Cursor.newlineRTL
    split_ifs
    · exact ⟨hLR, le_refl _⟩
    · exact ⟨le_refl _, hLR⟩
  | resetOp => exact ⟨hoL, hoR⟩

theorem marginInv_runTW (cfg : TWCfg) (ops : List TWOp) (hw : 0 ≤ cfg.letterWidth)
    (hoL : cfg.leftMargin ≤ cfg.originX) (hoR : cfg.originX ≤ cfg.rightMargin) :
    TWMarginInv cfg (runTW cfg ops) := by
  have hLR : cfg.leftMargin ≤ cfg.rightMargin := le_trans hoL hoR
  suffices h : ∀ tw, TWMarginInv cfg tw → TWMarginInv cfg (ops.foldl (applyTWOp cfg) tw) from
    h _ ⟨hoL, hoR⟩
  induction ops with
  | nil => exact fun tw htw => htw
  | cons op rest ih =>
    exact fun tw htw => ih _ (marginInv_applyTWOp cfg tw op hw hLR hoL hoR htw)

/-! ## Claims about the 2D document model (C3, C4, C8) -/

/-- C3 counterexample: `addCharacter` with explicit coordinates (the form
`import` replays through) synchronises the cursor to the given position
with no clamp or wrap, so a coordinate beyond the right margin puts the
cursor outside [leftMargin, rightMargin]. -/
theorem c3_counterexample :
    ¬ ((TypeWriter.addCharacter cfgC (freshTW cfgC) "a"
        (some (9999, 0))).cursorPos.x ≤ cfgC.rightMargin) := by decide

/-- C3 (amended): for every cursor state reachable through `addCharacter`
WITHOUT explicit coordinates, `handleNewline` and `reset` — that is,
through typing — the cursor's x coordinate satisfies leftMargin <= x <=
rightMargin (for a configuration with a non-negative letter width whose
origin lies between the margins); `addCharacter` with explicit
coordinates, and hence `import`, can move the cursor outside the
margins. -/
theorem c3_margin_invariant (cfg : TWCfg) (ops : List TWOp)
    (hw : 0 ≤ cfg.letterWidth) (hoL : cfg.leftMargin ≤ cfg.originX)
    (hoR : cfg.originX ≤ cfg.rightMargin) :
    cfg.leftMargin ≤ (runTW cfg ops).cursorPos.x ∧
      (runTW cfg ops).cursorPos.x ≤ cfg.rightMargin :=
  marginInv_runTW cfg ops hw hoL hoR

/-- Witness for C3 (amended) on a concrete configuration and run. -/
theorem c3_margin_invariant_witness :
    cfgC.leftMargin ≤ (runTW cfgC [.type 'a', .newline, .type 'א']).cursorPos.x ∧
      (runTW cfgC [.type 'a', .newline, .type 'א']).cursorPos.x ≤ cfgC.rightMargin :=
  c3_margin_invariant cfgC [.type 'a', .newline, .type 'א']
    (by decide) (by decide) (by decide)

/-! ## C4: the RTL/LTR seam snap -/

/-- C4: when the RTL classification of the incoming character differs from
the current direction mode and the cursor is within two letter widths of
the margin being left, the cursor snaps to the opposite margin before the
character is placed (both directions); and typing "a", "א", "b" with the
cursor near the left margin places the Hebrew character exactly at the
right margin and the following Latin character exactly at the left
margin. -/
theorem c4_rtl_seam_snap (cfg : TWCfg) (tw : TW) (ch : Char) :
    (tw.isRTLMode = false → isHebrewChar ch = true →
      tw.cursorPos.x ≤ cfg.leftMargin + cfg.letterWidth * 2 →
      (TypeWriter.addChar1 cfg tw ch).chars =
        tw.chars ++ [⟨String.singleton ch, cfg.rightMargin, tw.cursorPos.y⟩]) ∧
    (tw.isRTLMode = true → isHebrewChar ch = false →
      cfg.rightMargin - cfg.letterWidth * 2 ≤ tw.cursorPos.x →
      (TypeWriter.addChar1 cfg tw ch).chars =
        tw.chars ++ [⟨String.singleton ch, cfg.leftMargin, tw.cursorPos.y⟩]) ∧
    (tw.isRTLMode = false →
      cfg.leftMargin ≤ tw.cursorPos.x →
      tw.cursorPos.x ≤ cfg.leftMargin + cfg.letterWidth →
      cfg.leftMargin + cfg.letterWidth * 2 ≤ cfg.rightMargin →
      0 ≤ cfg.letterWidth →
      (TypeWriter.addCharacter cfg tw "aאb" none).chars =
        tw.chars ++ [⟨"a", tw.cursorPos.x, tw.cursorPos.y⟩,
          ⟨"א", cfg.rightMargin, tw.cursorPos.y⟩,
          ⟨"b", cfg.leftMargin, tw.cursorPos.y⟩]) := by
  refine ⟨?_, ?_, ?_⟩
  · intro hm hh hx
    unfold TypeWriter.addChar1
    dsimp only
    split_ifs
    all_goals simp [TypeWriter.placeChar, TypeWriter.snapLTR, TypeWriter.snapRTL, hm, hh, hx]
  · intro hm hh hx
    unfold TypeWriter.addChar1
    dsimp only
    split_ifs <;>
      simp [TypeWriter.placeChar, TypeWriter.snapLTR, TypeWriter.snapRTL, hm, hh, hx]
  · intro hm h1 h2 h3 h4
    have e1 : TypeWriter.addChar1 cfg tw 'a' =
        ⟨tw.chars ++ [⟨"a", tw.cursorPos.x, tw.cursorPos.y⟩],
          ⟨tw.cursorPos.x + cfg.letterWidth, tw.cursorPos.y⟩, false⟩ := by
      have hnw : ¬ (cfg.rightMargin < tw.cursorPos.x + cfg.letterWidth) := by linarith
      unfold TypeWriter.addChar1 Cursor.moveright
      simp [TypeWriter.placeChar, TypeWriter.snapLTR, TypeWriter.snapRTL, hm, hnw,
        show isHebrewChar 'a' = false from rfl, show String.singleton 'a' = "a" from rfl]
    have e2 : ∀ (l : List CharRec) (y0 : ℚ),
        TypeWriter.addChar1 cfg ⟨l, ⟨tw.cursorPos.x + cfg.letterWidth, y0⟩, false⟩ 'א' =
          ⟨l ++ [⟨"א", cfg.rightMargin, y0⟩],
            ⟨cfg.rightMargin - cfg.letterWidth, y0⟩, true⟩ := by
      intro l y0
      have hsnap : tw.cursorPos.x + cfg.letterWidth ≤ cfg.leftMargin + cfg.letterWidth * 2 := by
        linarith
      have hnw : ¬ (cfg.rightMargin - cfg.letterWidth < cfg.leftMargin) := by linarith
      unfold TypeWriter.addChar1 Cursor.moveleft
      simp [TypeWriter.placeChar, TypeWriter.snapLTR, TypeWriter.snapRTL, hsnap, hnw,
        show isHebrewChar 'א' = true from rfl, show String.singleton 'א' = "א" from rfl]
    have e3 : ∀ (l : List CharRec) (y0 : ℚ),
        TypeWriter.addChar1 cfg ⟨l, ⟨cfg.rightMargin - cfg.letterWidth, y0⟩, true⟩ 'b' =
          ⟨l ++ [⟨"b", cfg.leftMargin, y0⟩], ⟨cfg.leftMargin + cfg.letterWidth, y0⟩, false⟩ := by
      intro l y0
      have hsnap : cfg.rightMargin - cfg.letterWidth * 2 ≤ cfg.rightMargin - cfg.letterWidth := by
        linarith
      have hnw : ¬ (cfg.rightMargin < cfg.leftMargin + cfg.letterWidth) := by linarith
      unfold TypeWriter.addChar1 Cursor.moveright
      simp [TypeWriter.placeChar, TypeWriter.snapLTR, TypeWriter.snapRTL, hsnap, hnw,
        show isHebrewChar 'b' = false from rfl, show String.singleton 'b' = "b" from rfl]
    show (("aאb" : String).data.foldl (TypeWriter.addChar1 cfg) tw).chars = _
    rw [show ("aאb" : String).data = ['a', 'א', 'b'] from rfl]
    simp only [List.foldl_cons, List.foldl_nil]
    rw [e1, e2, e3]
    simp

/-- Witness for C4 at a concrete configuration and fresh document. -/
theorem c4_rtl_seam_snap_witness :
    (TypeWriter.addCharacter cfgC (freshTW cfgC) "aאb" none).chars =
      (freshTW cfgC).chars ++
        [⟨"a", (freshTW cfgC).cursorPos.x, (freshTW cfgC).cursorPos.y⟩,
          ⟨"א", cfgC.rightMargin, (freshTW cfgC).cursorPos.y⟩,
          ⟨"b", cfgC.leftMargin, (freshTW cfgC).cursorPos.y⟩] :=
  (c4_rtl_seam_snap cfgC (freshTW cfgC) 'a').2.2 rfl (by norm_num [cfgC, freshTW])
    (by norm_num [cfgC, freshTW]) (by norm_num [cfgC]) (by norm_num [cfgC])

/-! ## C8: reset clears -/

/-- C8: after `reset`, `export` returns the empty-sequence representation
"[]" and the cursor position equals the configured origin, whatever the
prior document state. -/
theorem c8_reset_clears (cfg : TWCfg) (tw : TW) :
    TypeWriter.twExport (TypeWriter.twReset cfg tw) = "[]" ∧
      (TypeWriter.twReset cfg tw).cursorPos = ⟨cfg.originX, cfg.originY⟩ :=
  ⟨rfl, rfl⟩

/-! ## C2: import fails soft on malformed payloads -/

/-- C2: for every input string that is malformed — not parseable as JSON,
or parseable but not an array — `import` leaves the document (characters,
cursor and direction mode) exactly as it was; it is a total function, so
nothing is thrown to the caller; and conversely any input that mutates the
document parses to an array. -/
theorem c2_soft_fail (cfg : TWCfg) (tw : TW) :
    (∀ s : String,
      (jsonParse s = none ∨ ∃ j, jsonParse s = some j ∧ ∀ items, j ≠ Json.arr items) →
      TypeWriter.twImport cfg tw s = tw) ∧
    (∀ s : String, TypeWriter.twImport cfg tw s ≠ tw →
      ∃ items, jsonParse s = some (Json.arr items)) := by
  constructor
  · intro s h
    unfold TypeWriter.twImport
    rcases h with h | ⟨j, hj, hne⟩
    · rw [h]
    · rw [hj]
      cases j with
      | arr items => exact absurd rfl (hne items)
      | null => rfl
      | bool b => rfl
      | num q => rfl
      | str s => rfl
      | obj fs => rfl
  · intro s h
    unfold TypeWriter.twImport at h
    cases hj : jsonParse s with
    | none =>
      rw [hj] at h
      exact absurd rfl h
    | some j =>
      rw [hj] at h
      cases j with
      | arr items => exact ⟨items, rfl⟩
      | null => exact absurd rfl h
      | bool b => exact absurd rfl h
      | num q => exact absurd rfl h
      | str s2 => exact absurd rfl h
      | obj fs => exact absurd rfl h

/-- Witness for C2: a non-JSON input leaves a fresh document untouched. -/
theorem c2_soft_fail_witness :
    TypeWriter.twImport cfgC (freshTW cfgC) "nope" = freshTW cfgC :=
  (c2_soft_fail cfgC (freshTW cfgC)).1 "nope" (Or.inl rfl)

/-! ## C1 round trip, part 1: decimal digits and numbers -/

theorem digitVal_digitChar {d : Nat} (h : d < 10) : digitVal (digitChar d) = d := by
  interval_cases d <;> rfl

theorem isDigitC_digitChar {d : Nat} (h : d < 10) : isDigitC (digitChar d) = true := by
  interval_cases d <;> rfl

theorem natReprAux_digits (fuel n : Nat) : ∀ c ∈ natReprAux fuel n, isDigitC c = true := by
  induction fuel generalizing n with
  | zero => simp [natReprAux]
  | succ f ih =>
    intro c hc
    unfold natReprAux at hc
    split_ifs at hc with h0
    · simp at hc
    · rcases List.mem_append.mp hc with h | h
      · exact ih (n / 10) c h
      · rw [List.mem_singleton.mp h]
        exact isDigitC_digitChar (Nat.mod_lt _ (by norm_num))

theorem natReprC_digits (n : Nat) : ∀ c ∈ natReprC n, isDigitC c = true := by
  unfold natReprC
  split_ifs
  · simp
    rfl
  · exact natReprAux_digits (n + 1) n

theorem digitsVal_append (ds : List Char) (c : Char) :
    digitsVal (ds ++ [c]) = digitsVal ds * 10 + digitVal c := by
  simp [digitsVal, List.foldl_append]

theorem natReprAux_val (fuel n : Nat) (h : n < fuel) : digitsVal (natReprAux fuel n) = n := by
  induction fuel generalizing n with
  | zero => omega
  | succ f ih =>
    unfold natReprAux
    split_ifs with h0
    · simp [digitsVal, h0]
    · rw [digitsVal_append, ih (n / 10) (by omega),
        digitVal_digitChar (Nat.mod_lt _ (by norm_num))]
      omega

theorem natReprC_val (n : Nat) : digitsVal (natReprC n) = n := by
  unfold natReprC
  split_ifs with h0
  · simp [digitsVal, digitVal, h0]
  · exact natReprAux_val (n + 1) n (by omega)

theorem natReprAux_ne_nil (fuel n : Nat) (hn : 0 < n) (h : n < fuel) :
    natReprAux fuel n ≠ [] := by
  cases fuel with
  | zero => omega
  | succ f =>
    unfold natReprAux
    rw [if_neg (by omega)]
    simp

theorem natReprC_ne_nil (n : Nat) : natReprC n ≠ [] := by
  unfold natReprC
  split_ifs with h0
  · simp
  · exact natReprAux_ne_nil (n + 1) n (by omega) (by omega)

theorem digitChar_ne_zero {d : Nat} (h1 : 0 < d) (h2 : d < 10) : digitChar d ≠ '0' := by
  interval_cases d <;> decide

theorem natReprAux_head_ne_zero (fuel n : Nat) (h : n < fuel) (hn : 0 < n) (c : Char)
    (hc : (natReprAux fuel n).head? = some c) : c ≠ '0' := by
  induction fuel generalizing n c with
  | zero => omega
  | succ f ih =>
    unfold natReprAux at hc
    rw [if_neg (by omega)] at hc
    by_cases h10 : n / 10 = 0
    · have hrepr : natReprAux f (n / 10) = [] := by
        cases f with
        | zero => rfl
        | succ g =>
          unfold natReprAux
          rw [if_pos h10]
      rw [hrepr, List.nil_append, List.head?_cons, Option.some_inj] at hc
      subst hc
      exact digitChar_ne_zero (by omega) (Nat.mod_lt _ (by norm_num))
    · have hne := natReprAux_ne_nil f (n / 10) (by omega) (by omega)
      cases hrepr : natReprAux f (n / 10) with
      | nil => exact absurd hrepr hne
      | cons c0 t0 =>
        rw [hrepr, List.cons_append, List.head?_cons, Option.some_inj] at hc
        subst hc
        exact ih (n / 10) (by omega) (by omega) c0 (by rw [hrepr]; rfl)

theorem takeDigits_append (ds rest : List Char) (hds : ∀ c ∈ ds, isDigitC c = true)
    (hrest : headDigit rest = false) : takeDigits (ds ++ rest) = (ds, rest) := by
  induction ds with
  | nil =>
    cases rest with
    | nil => rfl
    | cons c t =>
      simp only [headDigit] at hrest
      simp only [List.nil_append, takeDigits, hrest]
      simp
  | cons c t ih =>
    simp only [List.cons_append, takeDigits,
      hds c (List.mem_cons_self c t), if_true]
    rw [show t.append rest = t ++ rest from rfl,
      ih (fun c' hc' => hds c' (List.mem_cons_of_mem c hc'))]

/-! ## C1 round trip, part 2: parsing back serialized numbers -/

theorem numBoundary_props (rest : List Char) (h : numBoundary rest = true) :
    headDigit rest = false ∧ headIs rest '.' = false ∧ headIs rest 'e' = false ∧
      headIs rest 'E' = false := by
  cases rest with
  | nil => exact ⟨rfl, rfl, rfl, rfl⟩
  | cons c t =>
    simp only [numBoundary, Bool.not_eq_eq_eq_not, Bool.not_true, Bool.or_eq_false_iff,
      decide_eq_false_iff_not] at h
    obtain ⟨⟨⟨h1, h2⟩, h3⟩, h4⟩ := h
    refine ⟨by simp [headDigit, h1], ?_, ?_, ?_⟩ <;> simp [headIs, h2, h3, h4]

theorem isWsC_false_of_digit {c : Char} (h : isDigitC c = true) : isWsC c = false := by
  simp only [isWsC, Bool.or_eq_false_iff, decide_eq_false_iff_not]
  refine ⟨⟨⟨?_, ?_⟩, ?_⟩, ?_⟩ <;> (rintro rfl; exact absurd h (by decide))

theorem digit_ne_minus {c : Char} (h : isDigitC c = true) : (c == '-') = false := by
  simp only [beq_eq_false_iff_ne, ne_eq]
  rintro rfl
  exact absurd h (by decide)

theorem natReprC_head_ne_zero (n : Nat) (hn : 0 < n) (c : Char) (t : List Char)
    (hct : natReprC n = c :: t) : c ≠ '0' := by
  have : natReprC n = natReprAux (n + 1) n := by
    unfold natReprC
    rw [if_neg (by omega)]
  refine natReprAux_head_ne_zero (n + 1) n (by omega) hn c ?_
  rw [← this, hct]
  rfl

theorem parseUnsigned_natRepr (n : Nat) (rest : List Char) (hb : numBoundary rest = true) :
    parseUnsigned (natReprC n ++ rest) = some ((n : ℚ), rest) := by
  obtain ⟨hd, hdot, he, hE⟩ := numBoundary_props rest hb
  obtain ⟨c, t, hct⟩ : ∃ c t, natReprC n = c :: t := by
    cases h : natReprC n with
    | nil => exact absurd h (natReprC_ne_nil n)
    | cons c t => exact ⟨c, t, rfl⟩
  have hcd : isDigitC c = true :=
    natReprC_digits n c (by rw [hct]; exact List.mem_cons_self c t)
  have htd : takeDigits (natReprC n ++ rest) = (natReprC n, rest) :=
    takeDigits_append _ _ (natReprC_digits n) hd
  have hlz : (decide (c = '0') && headDigit (t ++ rest)) = false := by
    by_cases hc0 : c = '0'
    · subst hc0
      rcases Nat.eq_zero_or_pos n with h0 | hpos
      · have h01 : natReprC n = ['0'] := by rw [h0]; rfl
        rw [hct] at h01
        have ht : t = [] := by injection h01
        subst ht
        simp [hd]
      · exact absurd rfl (natReprC_head_ne_zero n hpos '0' t hct)
    · simp [hc0]
  rw [hct, List.cons_append]
  simp only [parseUnsigned]
  rw [if_neg (by simp [hcd])]
  rw [if_neg (by rw [show (decide (c = '0') && headDigit (t ++ rest)) = false from hlz]; simp)]
  rw [show c :: (t ++ rest) = natReprC n ++ rest by rw [hct, List.cons_append], htd]
  simp only [hdot, Bool.false_eq_true, if_false, he, hE, Bool.or_self]
  rw [natReprC_val]

theorem parseNumber_intRepr (i : Int) (rest : List Char) (hb : numBoundary rest = true) :
    parseNumber (intReprC i ++ rest) = some ((i : ℚ), rest) := by
  unfold intReprC
  split_ifs with hneg
  · rw [List.cons_append]
    simp only [parseNumber]
    rw [show headIs ('-' :: (natReprC i.natAbs ++ rest)) '-' = true from rfl]
    simp only [if_true, List.tail_cons]
    rw [parseUnsigned_natRepr i.natAbs rest hb]
    have h1 : ((i.natAbs : Int)) = -i := Int.ofNat_natAbs_of_nonpos (le_of_lt hneg)
    have hstep : (((i.natAbs : ℤ) : ℚ)) = ((i.natAbs : ℚ)) := Int.cast_natCast _
    have hcast : ((i.natAbs : ℚ)) = -(i : ℚ) := by
      rw [← hstep, h1]
      push_cast
      ring
    show some (-((i.natAbs : ℚ)), rest) = some ((i : ℚ), rest)
    rw [hcast, neg_neg]
  · obtain ⟨c, t, hct⟩ : ∃ c t, natReprC i.natAbs = c :: t := by
      cases h : natReprC i.natAbs with
      | nil => exact absurd h (natReprC_ne_nil i.natAbs)
      | cons c t => exact ⟨c, t, rfl⟩
    have hcd : isDigitC c = true :=
      natReprC_digits i.natAbs c (by rw [hct]; exact List.mem_cons_self c t)
    simp only [parseNumber]
    rw [show headIs (natReprC i.natAbs ++ rest) '-' = false by
      rw [hct, List.cons_append]
      simp [headIs, digit_ne_minus hcd]]
    simp only [Bool.false_eq_true, if_false]
    rw [parseUnsigned_natRepr i.natAbs rest hb]
    have h1 : ((i.natAbs : Int)) = i := Int.natAbs_of_nonneg (by omega)
    have hstep : (((i.natAbs : ℤ) : ℚ)) = ((i.natAbs : ℚ)) := Int.cast_natCast _
    have hcast : ((i.natAbs : ℚ)) = (i : ℚ) := by
      rw [← hstep, h1]
    show some (((i.natAbs : ℚ)), rest) = some ((i : ℚ), rest)
    rw [hcast]

/-! ## C1 round trip, part 3: parsing back serialized strings -/

theorem escBody_cons (c : Char) (cs : List Char) :
    escBody (c :: cs) = escCharJson c ++ escBody cs := by
  simp [escBody]

theorem parseStringBody_escBody (cs : List Char) (rest : List Char)
    (h : ∀ c ∈ cs, printableC c = true) :
    parseStringBody (escBody cs ++ '"' :: rest) = some (cs, rest) := by
  induction cs with
  | nil =>
    simp only [escBody, List.map_nil, List.flatten_nil, List.nil_append]
    unfold parseStringBody
    rw [if_pos rfl]
  | cons c cs ih =>
    rw [escBody_cons, List.append_assoc]
    have hc := h c (List.mem_cons_self c cs)
    have hrest := ih (fun c' hc' => h c' (List.mem_cons_of_mem c hc'))
    by_cases h1 : c = '"'
    · subst h1
      rw [show escCharJson '"' = ['\\', '"'] from rfl]
      show parseStringBody ('\\' :: '"' :: (escBody cs ++ '"' :: rest)) = _
      unfold parseStringBody
      rw [if_neg (show ¬('\\' : Char) = '"' by decide),
        if_pos (rfl : ('\\' : Char) = '\\')]
      dsimp only
      rw [if_neg (show ¬('"' : Char) = 'u' by decide)]
      rw [show simpleEsc '"' = some '"' from rfl]
      rw [hrest]
    · by_cases h2 : c = '\\'
      · subst h2
        rw [show escCharJson '\\' = ['\\', '\\'] from rfl]
        show parseStringBody ('\\' :: '\\' :: (escBody cs ++ '"' :: rest)) = _
        unfold parseStringBody
        rw [if_neg (show ¬('\\' : Char) = '"' by decide),
          if_pos (rfl : ('\\' : Char) = '\\')]
        dsimp only
        rw [if_neg (show ¬('\\' : Char) = 'u' by decide)]
        rw [show simpleEsc '\\' = some '\\' from rfl]
        rw [hrest]
      · have h3 : ¬ c.toNat < 0x20 := by
          simp only [printableC, decide_eq_true_eq] at hc
          omega
        rw [show escCharJson c = [c] by
          unfold escCharJson
          rw [if_neg h1, if_neg h2, if_neg h3]]
        show parseStringBody (c :: (escBody cs ++ '"' :: rest)) = _
        unfold parseStringBody
        rw [if_neg h1, if_neg h2, if_neg h3, hrest]

/-! ## C1 round trip, part 4: the full parse of an export string, the import
replay, well-formedness of reachable documents, and the round trip -/

theorem skipWs_cons {c : Char} (t : List Char) (h : isWsC c = false) :
    skipWs (c :: t) = c :: t := by
  simp [skipWs, h]

theorem digit_not_kw {c : Char} (h : isDigitC c = true) :
    ¬ c = 'n' ∧ ¬ c = 't' ∧ ¬ c = 'f' ∧ ¬ c = '"' ∧ ¬ c = '[' ∧ ¬ c = '\x7b' := by
  refine ⟨?_, ?_, ?_, ?_, ?_, ?_⟩ <;> (rintro rfl; exact absurd h (by decide))

theorem ratReprC_int (q : ℚ) (hq : IsIntQ q) : ratReprC q = intReprC q.num := by
  unfold ratReprC
  rw [if_pos (show q.den = 1 from hq)]

theorem parseValue_num (fuel : Nat) (q : ℚ) (rest : List Char) (hf : 1 ≤ fuel)
    (hq : IsIntQ q) (hb : numBoundary rest = true) :
    parseValue fuel (ratReprC q ++ rest) = some (.num q, rest) := by
  obtain ⟨f, rfl⟩ : ∃ f, fuel = f + 1 := ⟨fuel - 1, by omega⟩
  rw [ratReprC_int q hq]
  have hnum := parseNumber_intRepr q.num rest hb
  have hqq : ((q.num : ℚ)) = q := (Rat.den_eq_one_iff q).mp hq
  by_cases hneg : q.num < 0
  · have hshape : intReprC q.num = '-' :: natReprC q.num.natAbs := by
      unfold intReprC
      rw [if_pos hneg]
    rw [hshape, List.cons_append]
    unfold parseValue
    rw [skipWs_cons]
    dsimp only
    rw [if_neg, if_neg, if_neg, if_neg, if_neg, if_neg, if_pos]
    rw [show ('-' :: (natReprC q.num.natAbs ++ rest) : List Char) = intReprC q.num ++ rest by
      rw [hshape, List.cons_append]]
    rw [hnum]
    dsimp only
    rw [hqq]
    all_goals decide
  · obtain ⟨c, t, hct⟩ : ∃ c t, natReprC q.num.natAbs = c :: t := by
      cases h : natReprC q.num.natAbs with
      | nil => exact absurd h (natReprC_ne_nil q.num.natAbs)
      | cons c t => exact ⟨c, t, rfl⟩
    have hcd : isDigitC c = true :=
      natReprC_digits q.num.natAbs c (by rw [hct]; exact List.mem_cons_self c t)
    obtain ⟨k1, k2, k3, k4, k5, k6⟩ := digit_not_kw hcd
    have hshape : intReprC q.num = c :: t := by
      unfold intReprC
      rw [if_neg hneg]
      exact hct
    rw [hshape, List.cons_append]
    unfold parseValue
    rw [skipWs_cons]
    dsimp only
    rw [if_neg k1, if_neg k2, if_neg k3, if_neg k4, if_neg k5, if_neg k6, if_pos]
    rw [show (c :: (t ++ rest) : List Char) = intReprC q.num ++ rest by
      rw [hshape, List.cons_append]]
    rw [hnum]
    dsimp only
    rw [hqq]
    · rw [hcd]
      simp
    · exact isWsC_false_of_digit hcd

theorem parseValue_str (fuel : Nat) (s : String) (rest : List Char) (hf : 1 ≤ fuel)
    (hs : ∀ c ∈ s.data, printableC c = true) :
    parseValue fuel (quoteChars s ++ rest) = some (.str s, rest) := by
  obtain ⟨f, rfl⟩ : ∃ f, fuel = f + 1 := ⟨fuel - 1, by omega⟩
  have hshape : quoteChars s ++ rest = '"' :: (escBody s.data ++ '"' :: rest) := by
    simp [quoteChars]
  rw [hshape]
  unfold parseValue
  rw [skipWs_cons]
  dsimp only
  rw [if_neg, if_neg, if_neg, if_pos]
  rw [parseStringBody_escBody s.data rest hs]
  · rfl
  all_goals decide

theorem parseFields_sField (fuel : Nat) (s : String) (rest : List Char) (hf : 2 ≤ fuel)
    (hs : ∀ c ∈ s.data, printableC c = true) :
    parseFields fuel ('"' :: 's' :: '"' :: ':' :: (quoteChars s ++ '\x7d' :: rest))
      = some ([("s", .str s)], rest) := by
  obtain ⟨f, rfl⟩ : ∃ f, fuel = f + 1 := ⟨fuel - 1, by omega⟩
  unfold parseFields
  rw [skipWs_cons]
  dsimp only
  rw [if_pos]
  have hps : parseStringBody ('s' :: '"' :: (':' :: (quoteChars s ++ '\x7d' :: rest)))
      = some (['s'], ':' :: (quoteChars s ++ '\x7d' :: rest)) :=
    parseStringBody_escBody ['s'] _ (by decide)
  rw [hps]
  dsimp only
  rw [skipWs_cons]
  rw [if_pos]
  dsimp only [List.tail_cons]
  rw [parseValue_str f s ('\x7d' :: rest) (by omega) hs]
  dsimp only
  rw [skipWs_cons]
  rw [if_neg, if_pos]
  · rfl
  all_goals first | rfl | decide | exact Bool.false_ne_true

theorem parseFields_numStep (f : Nat) (k : Char) (q : ℚ) (tail rest2 : List Char)
    (flds : List (String × Json)) (hf : 1 ≤ f) (hq : IsIntQ q)
    (hk : (0x20 ≤ k.toNat : Bool) = true ∧ ¬ k = '"' ∧ ¬ k = '\\') :
    parseFields f tail = some (flds, rest2) →
    parseFields (f + 1) ('"' :: k :: '"' :: ':' :: (ratReprC q ++ (',' :: tail)))
      = some ((String.mk [k], .num q) :: flds, rest2) := by
  intro htail
  obtain ⟨hk0, hk1, hk2⟩ := hk
  have hek : escBody [k] = [k] := by
    have h1 : escBody [k] = escCharJson k ++ escBody [] := by simp [escBody]
    rw [h1]
    unfold escCharJson
    rw [if_neg hk1, if_neg hk2, if_neg (by simp only [printableC, decide_eq_true_eq] at hk0; omega)]
    simp [escBody]
  have hps : parseStringBody (k :: '"' :: (':' :: (ratReprC q ++ (',' :: tail))))
      = some ([k], ':' :: (ratReprC q ++ (',' :: tail))) := by
    have h0 := parseStringBody_escBody [k] (':' :: (ratReprC q ++ (',' :: tail)))
      (by intro c hc; simp only [List.mem_singleton] at hc; subst hc; exact hk0)
    rw [hek] at h0
    exact h0
  unfold parseFields
  rw [skipWs_cons]
  dsimp only
  rw [if_pos]
  rw [hps]
  dsimp only
  rw [skipWs_cons]
  rw [if_pos]
  dsimp only [List.tail_cons]
  rw [parseValue_num f q (',' :: tail) hf hq (rfl)]
  dsimp only
  rw [skipWs_cons]
  rw [if_pos]
  dsimp only [List.tail_cons]
  rw [htail]
  · rfl
  all_goals first | rfl | decide | exact Bool.false_ne_true

theorem fieldsChars_shape (r : CharRec) (rest : List Char) :
    TypeWriter.fieldsChars r ++ '\x7d' :: rest
      = '"' :: 'x' :: '"' :: ':' :: (ratReprC r.x ++ (',' ::
          ('"' :: 'y' :: '"' :: ':' :: (ratReprC r.y ++ (',' ::
            ('"' :: 's' :: '"' :: ':' :: (quoteChars r.s ++ '\x7d' :: rest))))))) := by
  unfold TypeWriter.fieldsChars
  rw [show quoteChars "x" = ['"', 'x', '"'] from rfl,
      show quoteChars "y" = ['"', 'y', '"'] from rfl,
      show quoteChars "s" = ['"', 's', '"'] from rfl]
  simp [List.append_assoc]

theorem parseFields_rec (fuel : Nat) (r : CharRec) (rest : List Char) (hf : 4 ≤ fuel)
    (hx : IsIntQ r.x) (hy : IsIntQ r.y)
    (hs : ∀ c ∈ r.s.data, printableC c = true) :
    parseFields fuel (TypeWriter.fieldsChars r ++ '\x7d' :: rest)
      = some ([("x", .num r.x), ("y", .num r.y), ("s", .str r.s)], rest) := by
  obtain ⟨f, rfl⟩ : ∃ f, fuel = f + 3 := ⟨fuel - 3, by omega⟩
  have hf1 : 1 ≤ f := by omega
  rw [fieldsChars_shape]
  exact parseFields_numStep (f + 2) 'x' r.x _ rest _ (by omega) hx (by decide)
    (parseFields_numStep (f + 1) 'y' r.y _ rest _ (by omega) hy (by decide)
      (parseFields_sField (f + 1) r.s rest (by omega) hs))

theorem parseValue_rec (fuel : Nat) (r : CharRec) (rest : List Char) (hf : 5 ≤ fuel)
    (hx : IsIntQ r.x) (hy : IsIntQ r.y)
    (hs : ∀ c ∈ r.s.data, printableC c = true) :
    parseValue fuel (TypeWriter.recToJsonChars r ++ rest)
      = some (TypeWriter.recVal r, rest) := by
  obtain ⟨f, rfl⟩ : ∃ f, fuel = f + 1 := ⟨fuel - 1, by omega⟩
  have hshape : TypeWriter.recToJsonChars r ++ rest
      = '\x7b' :: (TypeWriter.fieldsChars r ++ '\x7d' :: rest) := by
    unfold TypeWriter.recToJsonChars
    simp
  have hne : headIs (skipWs (TypeWriter.fieldsChars r ++ '\x7d' :: rest)) '\x7d' = false := by
    rw [fieldsChars_shape, skipWs_cons]
    rfl
    decide
  rw [hshape]
  unfold parseValue
  rw [skipWs_cons]
  dsimp only
  rw [if_neg, if_neg, if_neg, if_neg, if_neg, if_pos]
  rw [if_neg]
  rw [parseFields_rec f r rest (by omega) hx hy hs]
  · rfl
  all_goals first | rfl | decide | simp [hne]

theorem parseItems_export (recs : List CharRec) (fuel : Nat)
    (hne : recs ≠ []) (hf : recs.length + 5 ≤ fuel)
    (hr : ∀ r ∈ recs, IsIntQ r.x ∧ IsIntQ r.y ∧
      ∀ c ∈ r.s.data, printableC c = true) :
    parseItems fuel (TypeWriter.itemsChars recs ++ [']'])
      = some (recs.map TypeWriter.recVal, []) := by
  induction recs generalizing fuel with
  | nil => exact absurd rfl hne
  | cons r rs ih =>
    obtain ⟨f, rfl⟩ : ∃ f, fuel = f + 1 := ⟨fuel - 1, by simp at hf; omega⟩
    obtain ⟨hx, hy, hs⟩ := hr r (List.mem_cons_self r rs)
    cases rs with
    | nil =>
      show parseItems (f + 1) (TypeWriter.recToJsonChars r ++ [']']) = _
      unfold parseItems
      rw [parseValue_rec f r [']'] (by simp at hf; omega) hx hy hs]
      dsimp only
      rw [skipWs_cons]
      rw [if_neg, if_pos]
      · rfl
      all_goals first | rfl | decide
    | cons r2 rs2 =>
      have hshape : TypeWriter.itemsChars (r :: r2 :: rs2) ++ [']']
          = TypeWriter.recToJsonChars r
              ++ (',' :: (TypeWriter.itemsChars (r2 :: rs2) ++ [']'])) := by
        show (TypeWriter.recToJsonChars r ++ ',' :: TypeWriter.itemsChars (r2 :: rs2))
            ++ [']'] = _
        simp [List.append_assoc]
      rw [hshape]
      unfold parseItems
      rw [parseValue_rec f r _ (by simp at hf; omega) hx hy hs]
      dsimp only
      rw [skipWs_cons]
      rw [if_pos]
      dsimp only [List.tail_cons]
      rw [ih f (by simp) (by simp at hf ⊢; omega)
        (fun r' hr' => hr r' (List.mem_cons_of_mem r hr'))]
      · rfl
      all_goals first | rfl | decide

theorem ratReprC_ne_nil (q : ℚ) : ratReprC q ≠ [] := by
  unfold ratReprC intReprC
  split_ifs with h1 h2 h3
  · simp
  · exact natReprC_ne_nil _
  · simp
  · intro hcontra
    have hlen := congrArg List.length hcontra
    simp at hlen

theorem recToJsonChars_length (r : CharRec) : 13 ≤ (TypeWriter.recToJsonChars r).length := by
  have hx := List.length_pos.mpr (ratReprC_ne_nil r.x)
  have hy := List.length_pos.mpr (ratReprC_ne_nil r.y)
  unfold TypeWriter.recToJsonChars TypeWriter.fieldsChars quoteChars
  simp only [List.length_cons, List.length_append]
  omega

theorem itemsChars_length (recs : List CharRec) (h : recs ≠ []) :
    recs.length + 3 ≤ (TypeWriter.itemsChars recs).length := by
  induction recs with
  | nil => exact absurd rfl h
  | cons r rs ih =>
    cases rs with
    | nil =>
      have h1 := recToJsonChars_length r
      show _ ≤ (TypeWriter.recToJsonChars r).length
      simp only [List.length_cons, List.length_nil]
      omega
    | cons r2 rs2 =>
      have h1 := recToJsonChars_length r
      have h2 := ih (by simp)
      show _ ≤ (TypeWriter.recToJsonChars r ++ ',' :: TypeWriter.itemsChars (r2 :: rs2)).length
      simp only [List.length_cons, List.length_append] at h2 ⊢
      omega

theorem jsonParse_export (recs : List CharRec)
    (hr : ∀ r ∈ recs, IsIntQ r.x ∧ IsIntQ r.y ∧
      ∀ c ∈ r.s.data, printableC c = true) :
    jsonParse (String.mk (TypeWriter.exportChars recs))
      = some (.arr (recs.map TypeWriter.recVal)) := by
  cases recs with
  | nil => rfl
  | cons r rs =>
    have hlen0 := itemsChars_length (r :: rs) (by simp)
    unfold jsonParse
    show (match
        parseValue ((TypeWriter.exportChars (r :: rs)).length + 1)
          (TypeWriter.exportChars (r :: rs)) with
      | some vr => if skipWs vr.2 = [] then some vr.1 else none
      | none => none) = _
    have hhead : ∃ X, TypeWriter.itemsChars (r :: rs) ++ [']'] = '\x7b' :: X := by
      cases rs with
      | nil => exact ⟨_, rfl⟩
      | cons r2 rs2 => exact ⟨_, rfl⟩
    obtain ⟨X, hX⟩ := hhead
    have hne : headIs (skipWs (TypeWriter.itemsChars (r :: rs) ++ [']'])) ']' = false := by
      rw [hX, skipWs_cons]
      rfl
      decide
    have hshape : TypeWriter.exportChars (r :: rs)
        = '[' :: (TypeWriter.itemsChars (r :: rs) ++ [']']) := rfl
    rw [hshape]
    have hlen : ('[' :: (TypeWriter.itemsChars (r :: rs) ++ [']'])).length + 1
        = ((TypeWriter.itemsChars (r :: rs) ++ [']']).length + 1) + 1 := by
      simp
    rw [hlen]
    unfold parseValue
    rw [skipWs_cons]
    dsimp only
    rw [if_neg, if_neg, if_neg, if_neg, if_pos]
    rw [if_neg]
    rw [parseItems_export (r :: rs) ((TypeWriter.itemsChars (r :: rs) ++ [']']).length + 1)
      (by simp) (by simp only [List.length_cons, List.length_append] at hlen0 ⊢; omega) hr]
    · rfl
    all_goals first | rfl | decide | simp [hne]

theorem replayItem_recVal (cfg : TWCfg) (tw : TW) (r : CharRec) :
    TypeWriter.replayItem cfg tw (TypeWriter.recVal r)
      = some (TypeWriter.addCharacter cfg tw r.s (some (r.x, r.y))) := rfl

theorem replayItems_map_chars (cfg : TWCfg) (recs : List CharRec) (tw : TW) :
    (TypeWriter.replayItems cfg (recs.map TypeWriter.recVal) tw).chars
      = tw.chars ++ recs := by
  induction recs generalizing tw with
  | nil => simp [TypeWriter.replayItems]
  | cons r rs ih =>
    show (TypeWriter.replayItems cfg (TypeWriter.recVal r :: rs.map TypeWriter.recVal) tw).chars
        = tw.chars ++ (r :: rs)
    unfold TypeWriter.replayItems
    rw [replayItem_recVal]
    dsimp only
    rw [ih]
    show (tw.chars ++ [r]) ++ rs = tw.chars ++ (r :: rs)
    simp

theorem isIntQ_add {a b : ℚ} (ha : IsIntQ a) (hb : IsIntQ b) : IsIntQ (a + b) := by
  have ha' : ((a.num : ℚ)) = a := (Rat.den_eq_one_iff a).mp ha
  have hb' : ((b.num : ℚ)) = b := (Rat.den_eq_one_iff b).mp hb
  show (a + b).den = 1
  rw [← ha', ← hb', ← Int.cast_add]
  exact Rat.den_intCast _

theorem isIntQ_sub {a b : ℚ} (ha : IsIntQ a) (hb : IsIntQ b) : IsIntQ (a - b) := by
  have ha' : ((a.num : ℚ)) = a := (Rat.den_eq_one_iff a).mp ha
  have hb' : ((b.num : ℚ)) = b := (Rat.den_eq_one_iff b).mp hb
  show (a - b).den = 1
  rw [← ha', ← hb', ← Int.cast_sub]
  exact Rat.den_intCast _

theorem twwf_snapRTL (cfg : TWCfg) (b1 b2 : Bool) (tw : TW)
    (hR : IsIntQ cfg.rightMargin) (h : TWWF tw) :
    TWWF (TypeWriter.snapRTL cfg b1 b2 tw) := by
  unfold TypeWriter.snapRTL
  split_ifs
  · exact ⟨h.1, hR, h.2.2⟩
  · exact h

theorem twwf_snapLTR (cfg : TWCfg) (b1 b2 : Bool) (tw : TW)
    (hL : IsIntQ cfg.leftMargin) (h : TWWF tw) :
    TWWF (TypeWriter.snapLTR cfg b1 b2 tw) := by
  unfold TypeWriter.snapLTR
  split_ifs
  · exact ⟨h.1, hL, h.2.2⟩
  · exact h

theorem twwf_placeChar (tw : TW) (ch : Char) (h : TWWF tw)
    (hch : printableC ch = true) : TWWF (TypeWriter.placeChar tw ch) := by
  refine ⟨?_, h.2.1, h.2.2⟩
  intro r hr
  rcases List.mem_append.mp hr with h1 | h1
  · exact h.1 r h1
  · simp only [List.mem_singleton] at h1
    subst h1
    refine ⟨h.2.1, h.2.2, ?_⟩
    intro c hc
    have hd : (String.singleton ch).data = [ch] := rfl
    rw [hd] at hc
    simp only [List.mem_singleton] at hc
    subst hc
    exact hch

theorem v2_moveleft (cfg : TWCfg) (p : V2) (hR : IsIntQ cfg.rightMargin)
    (hW : IsIntQ cfg.letterWidth) (hH : IsIntQ cfg.lineHeight)
    (hx : IsIntQ p.x) (hy : IsIntQ p.y) :
    IsIntQ (Cursor.moveleft cfg p).x ∧ IsIntQ (Cursor.moveleft cfg p).y := by
  unfold Cursor.moveleft
  dsimp only
  split_ifs
  · exact ⟨hR, isIntQ_add hy hH⟩
  · exact ⟨isIntQ_sub hx hW, hy⟩

theorem v2_moveright (cfg : TWCfg) (p : V2) (hL : IsIntQ cfg.leftMargin)
    (hW : IsIntQ cfg.letterWidth) (hH : IsIntQ cfg.lineHeight)
    (hx : IsIntQ p.x) (hy : IsIntQ p.y) :
    IsIntQ (Cursor.moveright cfg p).x ∧ IsIntQ (Cursor.moveright cfg p).y := by
  unfold Cursor.moveright
  dsimp only
  split_ifs
  · exact ⟨hL, isIntQ_add hy hH⟩
  · exact ⟨isIntQ_add hx hW, hy⟩

theorem twwf_addChar1 (cfg : TWCfg) (tw : TW) (ch : Char) (hcfg : IntegralCfg cfg)
    (h : TWWF tw) (hch : printableC ch = true) :
    TWWF (TypeWriter.addChar1 cfg tw ch) := by
  obtain ⟨hL, hR, hW, hH, hOx, hOy⟩ := hcfg
  have h4 : TWWF (TypeWriter.placeChar
      (TypeWriter.snapLTR cfg (isHebrewChar ch) tw.isRTLMode
        (TypeWriter.snapRTL cfg (isHebrewChar ch) tw.isRTLMode
          { tw with isRTLMode := isHebrewChar ch })) ch) :=
    twwf_placeChar _ _ (twwf_snapLTR _ _ _ _ hL (twwf_snapRTL _ _ _ _ hR h)) hch
  unfold TypeWriter.addChar1
  dsimp only
  split_ifs
  · exact ⟨h4.1, (v2_moveleft cfg _ hR hW hH h4.2.1 h4.2.2).1,
      (v2_moveleft cfg _ hR hW hH h4.2.1 h4.2.2).2⟩
  · exact ⟨h4.1, (v2_moveright cfg _ hL hW hH h4.2.1 h4.2.2).1,
      (v2_moveright cfg _ hL hW hH h4.2.1 h4.2.2).2⟩

theorem twwf_foldl (cfg : TWCfg) (cs : List Char) (tw : TW) (hcfg : IntegralCfg cfg)
    (h : TWWF tw) (hs : ∀ c ∈ cs, printableC c = true) :
    TWWF (cs.foldl (TypeWriter.addChar1 cfg) tw) := by
  induction cs generalizing tw with
  | nil => exact h
  | cons c cs2 ih =>
    exact ih (TypeWriter.addChar1 cfg tw c)
      (twwf_addChar1 cfg tw c hcfg h (hs c (List.mem_cons_self c cs2)))
      (fun c' hc' => hs c' (List.mem_cons_of_mem c hc'))

theorem twwf_handleNewline (cfg : TWCfg) (tw : TW) (hcfg : IntegralCfg cfg)
    (h : TWWF tw) : TWWF (TypeWriter.handleNewline cfg tw) := by
  obtain ⟨hL, hR, hW, hH, hOx, hOy⟩ := hcfg
  unfold TypeWriter.handleNewline Cursor.newline Cursor.newlineRTL
  split_ifs
  · exact ⟨h.1, hR, isIntQ_add h.2.2 hH⟩
  · exact ⟨h.1, hL, isIntQ_add h.2.2 hH⟩

theorem twwf_twReset (cfg : TWCfg) (tw : TW) (hcfg : IntegralCfg cfg) :
    TWWF (TypeWriter.twReset cfg tw) := by
  refine ⟨?_, hcfg.2.2.2.2.1, hcfg.2.2.2.2.2⟩
  intro r hr
  exact absurd hr (List.not_mem_nil r)

theorem twwf_applyTWOp (cfg : TWCfg) (tw : TW) (op : TWOp) (hcfg : IntegralCfg cfg)
    (h : TWWF tw) (hop : TWOpOk op = true) : TWWF (applyTWOp cfg tw op) := by
  cases op with
  | type c =>
    show TWWF ((String.singleton c).data.foldl (TypeWriter.addChar1 cfg) tw)
    refine twwf_foldl cfg _ tw hcfg h ?_
    intro c' hc'
    have hd : (String.singleton c).data = [c] := rfl
    rw [hd] at hc'
    simp only [List.mem_singleton] at hc'
    subst hc'
    exact hop
  | newline => exact twwf_handleNewline cfg tw hcfg h
  | resetOp => exact twwf_twReset cfg tw hcfg

theorem twwf_foldl_ops (cfg : TWCfg) (ops : List TWOp) (tw : TW) (hcfg : IntegralCfg cfg)
    (h : TWWF tw) (hops : ∀ op ∈ ops, TWOpOk op = true) :
    TWWF (ops.foldl (applyTWOp cfg) tw) := by
  induction ops generalizing tw with
  | nil => exact h
  | cons op rest ih =>
    exact ih (applyTWOp cfg tw op)
      (twwf_applyTWOp cfg tw op hcfg h (hops op (List.mem_cons_self op rest)))
      (fun op2 hop2 => hops op2 (List.mem_cons_of_mem op hop2))

theorem twwf_runTW (cfg : TWCfg) (ops : List TWOp) (hcfg : IntegralCfg cfg)
    (hops : ∀ op ∈ ops, TWOpOk op = true) : TWWF (runTW cfg ops) :=
  twwf_foldl_ops cfg ops (freshTW cfg) hcfg
    ⟨fun r hr => absurd hr (List.not_mem_nil r), hcfg.2.2.2.2.1, hcfg.2.2.2.2.2⟩ hops

/-- C1: for every document reachable by typing printable characters and
newlines into a fresh document (any integral margin configuration), importing
the export string reproduces the identical ordered sequence of
placed-character records, and a subsequent export returns a string identical
to the first. -/
theorem c1_round_trip (cfg : TWCfg) (ops : List TWOp) (hcfg : IntegralCfg cfg)
    (hops : ∀ op ∈ ops, TWOpOk op = true) :
    (TypeWriter.twImport cfg (runTW cfg ops)
        (TypeWriter.twExport (runTW cfg ops))).chars = (runTW cfg ops).chars ∧
      TypeWriter.twExport (TypeWriter.twImport cfg (runTW cfg ops)
          (TypeWriter.twExport (runTW cfg ops)))
        = TypeWriter.twExport (runTW cfg ops) := by
  have hwf : TWWF (runTW cfg ops) := twwf_runTW cfg ops hcfg hops
  have hr : ∀ r ∈ (runTW cfg ops).chars, IsIntQ r.x ∧ IsIntQ r.y ∧
      ∀ c ∈ r.s.data, printableC c = true := hwf.1
  have hparse : jsonParse (TypeWriter.twExport (runTW cfg ops))
      = some (.arr ((runTW cfg ops).chars.map TypeWriter.recVal)) :=
    jsonParse_export _ hr
  have hchars : (TypeWriter.twImport cfg (runTW cfg ops)
      (TypeWriter.twExport (runTW cfg ops))).chars = (runTW cfg ops).chars := by
    unfold TypeWriter.twImport
    rw [hparse]
    dsimp only
    rw [replayItems_map_chars]
    simp [TypeWriter.twReset]
  refine ⟨hchars, ?_⟩
  show String.mk (TypeWriter.exportChars (TypeWriter.twImport cfg (runTW cfg ops)
      (TypeWriter.twExport (runTW cfg ops))).chars) = TypeWriter.twExport (runTW cfg ops)
  rw [hchars]
  rfl

theorem c1_round_trip_witness :
    (TypeWriter.twImport cfgC (runTW cfgC [.type 'a', .newline, .type 'ב'])
        (TypeWriter.twExport (runTW cfgC [.type 'a', .newline, .type 'ב']))).chars
      = (runTW cfgC [.type 'a', .newline, .type 'ב']).chars ∧
      TypeWriter.twExport (TypeWriter.twImport cfgC
          (runTW cfgC [.type 'a', .newline, .type 'ב'])
          (TypeWriter.twExport (runTW cfgC [.type 'a', .newline, .type 'ב'])))
        = TypeWriter.twExport (runTW cfgC [.type 'a', .newline, .type 'ב']) :=
  c1_round_trip cfgC [.type 'a', .newline, .type 'ב']
    ⟨rfl, rfl, rfl, rfl, rfl, rfl⟩ (by decide)

end TWS
